import Mathlib

/-!
Verification of the project-context MCP server core
(`src/mcp/resources.ts`, `src/mcp/tools.ts`, `src/mcp/middleware.ts`)
against its natural-language specification.

The TypeScript sources are shallowly embedded as Lean definitions over an
explicit in-memory filesystem model.  Conventions of the embedding:

* The asynchronous filesystem API (`fs.stat`, `fs.readdir`, `fs.readFile`,
  `fs.access`) is modelled by a pure tree (`FSEntry`).  A `readable := false`
  directory is one whose `readdir` call fails; a `readable := false` file is
  one whose `readFile`/`access` call fails.  `fs.stat` is modelled as always
  succeeding on an entry that exists (metadata is part of the tree).
* Timestamps (`Date.now()`, `stats.mtime`) are integers (milliseconds).
* Thrown JavaScript `Error` objects are modelled by `Except JsError`, with
  the runtime `name` field carried explicitly, exactly as the middleware
  inspects it.
* `JSON.parse` of `package.json` is modelled by an optional pre-parsed
  `Manifest` (`none` = file missing or malformed, the `catch` paths).
* Textual rendering of structured results (summary strings, JSON
  stringification) is not modelled; theorems are about the structured
  values the renderers serialize.
-/

/-! ## JavaScript string primitives used by the sources -/

/-- Boolean prefix test on character lists (`String.prototype.startsWith`
restricted to the list view). -/
def listPrefixOf : List Char → List Char → Bool
  | [], _ => true
  | _ :: _, [] => false
  | a :: as, b :: bs => a == b && listPrefixOf as bs

/-- Substring occurrence test on character lists. -/
def listInfixOf : List Char → List Char → Bool
  | pat, [] => listPrefixOf pat []
  | pat, c :: rest => listPrefixOf pat (c :: rest) || listInfixOf pat rest

/-- Model of `String.prototype.includes`. -/
def jsIncludes (s pat : String) : Bool :=
  listInfixOf pat.toList s.toList

/-- Model of `String.prototype.toLowerCase` (ASCII range, which is all the
sources compare). -/
def jsToLower (s : String) : String := String.mk (s.toList.map Char.toLower)

/-- Model of `String.prototype.startsWith`. -/
def jsStartsWith (s pat : String) : Bool :=
  listPrefixOf pat.toList s.toList

/-- Splitting on a single separator character
(`String.prototype.split(sep)` for the one-character separators the
sources use): the loop behind `splitOnChar`. -/
def splitCharGo (sep : Char) : List Char → List Char → List String
  | [], acc => [String.mk acc.reverse]
  | c :: rest, acc =>
      if c == sep then String.mk acc.reverse :: splitCharGo sep rest []
      else splitCharGo sep rest (c :: acc)

/-- `s.split(sep)` for a one-character separator. -/
def splitOnChar (sep : Char) (s : String) : List String :=
  splitCharGo sep s.toList []

/-- The characters of `s` after the first occurrence of `marker`,
`none` when `marker` does not occur. -/
def afterMarker (marker : List Char) : List Char → Option (List Char)
  | [] => if marker.isEmpty then some [] else none
  | c :: rest =>
      if listPrefixOf marker (c :: rest) then
        some (List.drop marker.length (c :: rest))
      else afterMarker marker rest

/-- Model of `String.prototype.trim`. -/
def jsTrim (s : String) : String :=
  String.mk
    (((s.toList.dropWhile Char.isWhitespace).reverse.dropWhile
      Char.isWhitespace).reverse)

/-- Split a relative path into its non-empty `/`-separated segments (the
effect of resolving the path against the project root with `path.join`
followed by filesystem lookup; `.`/`..` normalization is not modelled). -/
def pathSegs (p : String) : List String :=
  (splitOnChar '/' p).filter (fun s => !(s == ""))

/-- Relative path of a child named `n` under the relative directory path
`pre` (the source computes `fullPath.replace(basePath + '/', '')`). -/
def relOf (pre n : String) : String :=
  if pre = "" then n else pre ++ "/" ++ n

/-- Model of Node's `path.extname`: the suffix of the last path segment
from its final dot, empty when the last dot is absent or leads the
segment. -/
def extname (p : String) : String :=
  let base := (splitOnChar '/' p).getLastD ""
  let cs := base.toList
  match (List.range cs.length).filter
      (fun i => cs.getD i ' ' == '.') |>.getLast? with
  | some i => if i = 0 then "" else String.mk (cs.drop i)
  | none => ""

/-- JavaScript string truthiness fallback `a || b` (empty string is falsy). -/
def jsOrS (a b : String) : String := if a = "" then b else a

/-- JavaScript truthiness fallback for an optional string field. -/
def jsOrOS (a : Option String) (b : String) : String :=
  match a with
  | some s => jsOrS s b
  | none => b

/-! ## Filesystem model -/

/-- In-memory filesystem entry.  `mtime` is milliseconds since the epoch
(`stats.mtime`).  For a directory, `readable = false` means `fs.readdir`
throws on it; for a file it means `fs.readFile`/`fs.access` throw. -/
inductive FSEntry : Type where
  | file (name : String) (size : Nat) (content : String) (mtime : Nat)
      (readable : Bool)
  | dir (name : String) (entries : List FSEntry) (mtime : Nat)
      (readable : Bool)
deriving Repr

/-- Name of an entry. -/
def FSEntry.name : FSEntry → String
  | .file n _ _ _ _ => n
  | .dir n _ _ _ => n

/-- Resolve a segment path against an entry (the filesystem lookup
performed by `fs.stat(join(projectPath, p))`). -/
def resolvePath : FSEntry → List String → Option FSEntry
  | e, [] => some e
  | .dir _ es _ _, s :: rest =>
      match es.find? (fun e => e.name == s) with
      | some c => resolvePath c rest
      | none => none
  | .file _ _ _ _ _, _ :: _ => none

/-- A parsed `package.json` (`JSON.parse` result).  Dependency maps are
association lists in object-key order; `none` models an absent (or
JSON-`null`, hence falsy) field. -/
structure Manifest where
  name : Option String := none
  version : Option String := none
  description : Option String := none
  dependencies : Option (List (String × String)) := none
  devDependencies : Option (List (String × String)) := none
deriving Repr, DecidableEq

/-- The project a server instance is configured on: the root directory
tree, the last segment of `config.projectPath`, and the parse result of
`<root>/package.json` (`none` when missing or malformed). -/
structure Project where
  root : FSEntry
  rootBase : String
  manifest : Option Manifest := none
deriving Repr

/-- Entries of the project root as `fs.readdir(projectPath)` would list
them, `none` when the root cannot be listed. -/
def Project.rootEntries (p : Project) : Option (List FSEntry) :=
  match p.root with
  | .dir _ es _ true => some es
  | _ => none

/-! ## Middleware (`src/mcp/middleware.ts`) -/

/-- A thrown JavaScript `Error`, carrying the runtime `name` the
middleware classifies on and the `message`. -/
structure JsError where
  name : String
  message : String
deriving Repr, DecidableEq

/-- Constructor `new ValidationError(msg)`. -/
def validationError (msg : String) : JsError := ⟨"ValidationError", msg⟩

/-- Constructor `new NotFoundError(msg)`. -/
def notFoundError (msg : String) : JsError := ⟨"NotFoundError", msg⟩

/-- Constructor `new PermissionError(msg)`. -/
def permissionError (msg : String) : JsError := ⟨"PermissionError", msg⟩

/-- The re-thrown message produced by `errorHandlingMiddleware`'s catch
clause for a given caught error. -/
def classifyError (e : JsError) : String :=
  if e.name = "ValidationError" then "Invalid request: " ++ e.message
  else if e.name = "NotFoundError" then "Resource not found: " ++ e.message
  else if e.name = "PermissionError" then "Permission denied: " ++ e.message
  else "Internal server error"

/-- `errorHandlingMiddleware(operation, context)`: the operation's result
passes through unchanged; a rejection is re-thrown with the classified
message. -/
def errorHandlingMiddleware {α : Type} (operation : Except JsError α) :
    Except String α :=
  match operation with
  | .ok a => .ok a
  | .error e => .error (classifyError e)

/-- Rate limiter configuration (`maxRequests`, `windowMs`). -/
structure RateLimiter where
  maxRequests : Nat := 100
  windowMs : Int := 60000
deriving Repr

/-- The limiter's private `requests` map, keyed by client id, in `Map`
insertion order. -/
def RLState : Type := List (String × List Int)

/-- Lookup in the `requests` map (`this.requests.get(clientId)`). -/
def rlGet (s : RLState) (clientId : String) : Option (List Int) :=
  match (List.find? (fun kv => kv.1 == clientId) s) with
  | some kv => some kv.2
  | none => none

/-- `Map.set`: replace in place when the key exists, append otherwise. -/
def rlSet (s : RLState) (clientId : String) (v : List Int) : RLState :=
  match s with
  | [] => [(clientId, v)]
  | kv :: rest =>
      if kv.1 = clientId then (clientId, v) :: rest
      else kv :: rlSet rest clientId v

/-- `RateLimiter.checkLimit(clientId)` at wall-clock time `now`: prune
timestamps outside the window, reject when the pruned list has reached
`maxRequests`, otherwise record `now` and admit.  Returns the admission
flag and the `requests` map after the call. -/
def checkLimit (rl : RateLimiter) (s : RLState) (clientId : String)
    (now : Int) : Bool × RLState :=
  let clientRequests := (rlGet s clientId).getD []
  let validRequests :=
    clientRequests.filter (fun timestamp => now - timestamp < rl.windowMs)
  if validRequests.length ≥ rl.maxRequests then
    (false, s)
  else
    (true, rlSet s clientId (validRequests ++ [now]))

/-! ## Locale collation model for `String.prototype.localeCompare`

`buildFileTree` and `navigateStructure` order names with
`a.name.localeCompare(b.name)`.  Node's default locale (ICU root/`en`)
compares at the primary level ignoring case and, for strings equal at the
primary level, orders lowercase before uppercase.  The model below
implements exactly that for the ASCII range: the primary key case-folds
letters (non-letters keep their code point, an approximation of ICU's
treatment of punctuation), and the tertiary key marks uppercase letters.
-/

/-- Primary collation weight of a character (case-folded code point). -/
def charPrimary (c : Char) : Nat := c.toLower.toNat

/-- Tertiary collation weight: lowercase (and non-letters) before
uppercase. -/
def charTertiary (c : Char) : Nat := if c.isUpper then 1 else 0

/-- Strict lexicographic order on weight lists. -/
def lexLtNat : List Nat → List Nat → Bool
  | [], [] => false
  | [], _ :: _ => true
  | _ :: _, [] => false
  | a :: as, b :: bs => a < b || (a == b && lexLtNat as bs)

/-- Primary key of a string. -/
def primaryKey (s : String) : List Nat := s.toList.map charPrimary

/-- Tertiary key of a string. -/
def tertiaryKey (s : String) : List Nat := s.toList.map charTertiary

/-- Strict part of the modelled `localeCompare` order. -/
def locLt (a b : String) : Bool :=
  lexLtNat (primaryKey a) (primaryKey b) ||
    (primaryKey a == primaryKey b &&
      lexLtNat (tertiaryKey a) (tertiaryKey b))

/-- Modelled `a.localeCompare(b) <= 0`. -/
def locLe (a b : String) : Bool := !(locLt b a)

/-! ## Resource provider (`src/mcp/resources.ts`) -/

/-- Node kind of a `ProjectStructure` node. -/
inductive NodeType : Type where
  | file
  | directory
deriving Repr, DecidableEq

/-- The `ProjectStructure` tree returned by the structure resource.
`children = none` models the field left `undefined` when `fs.readdir`
failed on the directory. -/
inductive PS : Type where
  | mk (path : String) (type : NodeType) (name : String)
      (extension : Option String) (size : Option Nat)
      (children : Option (List PS)) (lastModified : Nat)
deriving Repr

/-- Relative path of a node. -/
def PS.path : PS → String
  | .mk p _ _ _ _ _ _ => p

/-- Kind of a node. -/
def PS.type : PS → NodeType
  | .mk _ t _ _ _ _ _ => t

/-- Name of a node (the relative path for non-root nodes, the base name
of the project path for the root). -/
def PS.name : PS → String
  | .mk _ _ n _ _ _ _ => n

/-- Children of a node. -/
def PS.children : PS → Option (List PS)
  | .mk _ _ _ _ _ c _ => c

/-- Size of a node. -/
def PS.size : PS → Option Nat
  | .mk _ _ _ _ s _ _ => s

/-- The comparator passed to `node.children.sort`, as a `Bool`-valued
`le` relation: directories strictly precede files; within a kind, the
`localeCompare` order on names decides. -/
def nodeLe (a b : PS) : Bool :=
  if a.type ≠ b.type then a.type = NodeType.directory
  else locLe a.name b.name

/-- Entry-skipping rule shared by `buildFileTree`, `navigateStructure`,
`searchInDirectory` and `getProjectStats`: hidden entries are skipped
unless their name starts with `.git`; entries named in the fixed skip-set
are skipped. -/
def skipEntry (n : String) : Bool :=
  (jsStartsWith n "." && !(jsStartsWith n ".git")) ||
    (n == "node_modules" || n == "dist" || n == "build" || n == "coverage")

mutual

/-- `ProjectContextResources.buildFileTree`: depth-first construction of
the `ProjectStructure` tree.  `rel` is the path of the entry relative to
the project root (empty for the root itself); `rootBase` is the base name
of the project path, used as the root node's name. -/
def buildFileTree (rootBase : String) (e : FSEntry) (rel : String) : PS :=
  match e with
  | .file _ size _ mtime _ =>
      let nm := jsOrS rel rootBase
      PS.mk rel NodeType.file nm (some (extname nm)) (some size) none mtime
  | .dir _ entries mtime readable =>
      let nm := jsOrS rel rootBase
      if readable then
        PS.mk rel NodeType.directory nm none none
          (some ((buildChildren rootBase entries rel).mergeSort nodeLe)) mtime
      else
        PS.mk rel NodeType.directory nm none none none mtime

/-- Children of a directory node before sorting: skipped entries removed,
each remaining entry built recursively, in `readdir` order. -/
def buildChildren (rootBase : String) (es : List FSEntry) (rel : String) :
    List PS :=
  match es with
  | [] => []
  | e :: rest =>
      if skipEntry e.name then buildChildren rootBase rest rel
      else
        buildFileTree rootBase e (relOf rel e.name) ::
          buildChildren rootBase rest rel

end

/-- The structure resource: `buildFileTree(projectPath, projectPath)`. -/
def getProjectStructure (p : Project) : PS :=
  buildFileTree p.rootBase p.root ""

/-- Accumulator of `getProjectStats`: file count, total size, latest
modification time seen so far. -/
structure StatsAcc where
  fileCount : Nat := 0
  sizeInBytes : Nat := 0
  lastModified : Nat := 0
deriving Repr, DecidableEq

mutual

/-- One step of `getProjectStats`'s `countFiles` walk over a directory
listing.  Hidden entries (except `.git*`) are skipped; the skip-set
applies to directories only; an unreadable directory contributes
nothing (its `readdir` error is swallowed). -/
def statsList (es : List FSEntry) (acc : StatsAcc) : StatsAcc :=
  match es with
  | [] => acc
  | e :: rest =>
      if jsStartsWith e.name "." && !(jsStartsWith e.name ".git") then
        statsList rest acc
      else
        statsList rest (statsEntry e acc)

/-- Contribution of one non-hidden entry to the statistics. -/
def statsEntry (e : FSEntry) (acc : StatsAcc) : StatsAcc :=
  match e with
  | .dir n entries _ readable =>
      if n == "node_modules" || n == "dist" || n == "build" ||
          n == "coverage" then acc
      else if readable then statsList entries acc
      else acc
  | .file _ size _ mtime _ =>
      { fileCount := acc.fileCount + 1,
        sizeInBytes := acc.sizeInBytes + size,
        lastModified := max acc.lastModified mtime }

end

/-- `ProjectContextResources.getProjectStats`. -/
def getProjectStats (p : Project) : StatsAcc :=
  match p.root with
  | .dir _ es _ true => statsList es {}
  | _ => {}

/-- The `languageMap` extension table of `detectPrimaryLanguage`. -/
def languageMap (ext : String) : Option String :=
  if ext = ".ts" then some "TypeScript"
  else if ext = ".js" then some "JavaScript"
  else if ext = ".py" then some "Python"
  else if ext = ".java" then some "Java"
  else if ext = ".cpp" then some "C++"
  else if ext = ".c" then some "C"
  else if ext = ".go" then some "Go"
  else if ext = ".rs" then some "Rust"
  else if ext = ".php" then some "PHP"
  else if ext = ".rb" then some "Ruby"
  else if ext = ".swift" then some "Swift"
  else if ext = ".kt" then some "Kotlin"
  else if ext = ".cs" then some "C#"
  else none

/-- Increment the count of `ext` in an extension-count association list,
first occurrence keeping object-key insertion order (the behavior of
`extensionCounts[ext] = (extensionCounts[ext] || 0) + 1`). -/
def bumpCount (counts : List (String × Nat)) (ext : String) :
    List (String × Nat) :=
  match counts with
  | [] => [(ext, 1)]
  | (k, v) :: rest =>
      if k = ext then (k, v + 1) :: rest
      else (k, v) :: bumpCount rest ext

mutual

/-- `detectPrimaryLanguage`'s `countExtensions` walk.  All hidden entries
are skipped here (including `.git`), and the directory skip-set omits
`coverage`. -/
def extCountList (es : List FSEntry) (counts : List (String × Nat)) :
    List (String × Nat) :=
  match es with
  | [] => counts
  | e :: rest =>
      if jsStartsWith e.name "." then extCountList rest counts
      else extCountList rest (extCountEntry e counts)

/-- Contribution of one non-hidden entry to the extension counts. -/
def extCountEntry (e : FSEntry) (counts : List (String × Nat)) :
    List (String × Nat) :=
  match e with
  | .dir n entries _ readable =>
      if n == "node_modules" || n == "dist" || n == "build" then counts
      else if readable then extCountList entries counts
      else counts
  | .file n _ _ _ _ =>
      match languageMap (extname n) with
      | some _ => bumpCount counts (extname n)
      | none => counts

end

/-- Head of `Object.entries(counts).sort(([,a],[,b]) => b - a)`: the
first key holding the maximal count, in insertion order (the sort is
stable and strictly decreasing on counts). -/
def firstMax (counts : List (String × Nat)) : Option String :=
  match counts with
  | [] => none
  | (k, v) :: rest =>
      match firstMax rest with
      | none => some k
      | some k2 =>
          let v2 := ((rest.find? (fun kv => kv.1 == k2)).map Prod.snd).getD 0
          if v2 > v then some k2 else some k

/-- `ProjectContextResources.detectPrimaryLanguage`. -/
def detectPrimaryLanguage (p : Project) : String :=
  let counts :=
    match p.root with
    | .dir _ es _ true => extCountList es []
    | _ => []
  match firstMax counts with
  | some ext => (languageMap ext).getD "Unknown"
  | none => "Unknown"

/-- Merged `{...dependencies, ...devDependencies}` view of the manifest,
with a truthiness presence test (an empty version string is falsy). -/
def hasDep (m : Manifest) (pkg : String) : Bool :=
  let merged := (m.dependencies.getD []) ++ (m.devDependencies.getD [])
  match merged.reverse.find? (fun kv => kv.1 == pkg) with
  | some kv => !(kv.2 == "")
  | none => false

/-- `ProjectContextResources.detectFramework`: first marker package found
in the fixed priority order, `undefined` when none is present. -/
def detectFramework (packageInfo : Option Manifest) : Option String :=
  match packageInfo with
  | none => none
  | some m =>
      if hasDep m "react" then some "React"
      else if hasDep m "vue" then some "Vue.js"
      else if hasDep m "angular" then some "Angular"
      else if hasDep m "svelte" then some "Svelte"
      else if hasDep m "express" then some "Express.js"
      else if hasDep m "fastify" then some "Fastify"
      else if hasDep m "nest" || hasDep m "@nestjs/core" then some "NestJS"
      else if hasDep m "next" then some "Next.js"
      else if hasDep m "nuxt" then some "Nuxt.js"
      else none

namespace Resources

/-- `ProjectContextResources.detectPackageManager`: decided purely from
the names listed in the project root; returns "unknown" when no marker
file is present or the root cannot be listed. -/
def detectPackageManager (p : Project) : String :=
  match p.rootEntries with
  | none => "unknown"
  | some es =>
      let files := es.map FSEntry.name
      if files.contains "package-lock.json" then "npm"
      else if files.contains "yarn.lock" then "yarn"
      else if files.contains "pnpm-lock.yaml" then "pnpm"
      else if files.contains "Cargo.toml" then "cargo"
      else if files.contains "requirements.txt" || files.contains "Pipfile"
        then "pip"
      else if files.contains "go.mod" then "go mod"
      else if files.contains "Gemfile" then "bundler"
      else if files.contains "composer.json" then "composer"
      else "unknown"

end Resources

/-- Git facts surfaced by `getGitInfo`. -/
structure GitInfo where
  gitRepository : Option String := none
  gitBranch : Option String := none
deriving Repr, DecidableEq

/-- Extract the branch from `.git/HEAD` content: the regex
`/ref: refs\/heads\/(.+)/` captures the rest of the line after the
marker, then `.trim()` is applied. -/
def parseHeadBranch (content : String) : Option String :=
  let marker := "ref: refs/heads/"
  match afterMarker marker.toList content.toList with
  | some rest =>
      let line := String.mk (rest.takeWhile (fun c => !(c == '\n')))
      -- `(.+)` needs at least one character on the line; the captured
      -- text is then trimmed (possibly to the empty string).
      if line = "" then none else some (jsTrim line)
  | none => none

/-- `ProjectContextResources.getGitInfo`. -/
def getGitInfo (p : Project) : GitInfo :=
  match resolvePath p.root [".git"] with
  | none => {}
  | some _ =>
      let branch :=
        match resolvePath p.root [".git", "HEAD"] with
        | some (.file _ _ content _ true) => parseHeadBranch content
        | _ => none
      { gitRepository := some "Local Git Repository", gitBranch := branch }

/-- A `Dependency` entry of the dependencies resource. -/
structure Dependency where
  name : String
  version : String
  requestedVersion : String
  type : String
deriving Repr, DecidableEq

/-- The `ProjectDependencies` payload. -/
structure ProjectDependencies where
  packageManager : String
  dependencies : List Dependency
  devDependencies : List Dependency
  totalCount : Nat
  lockFileExists : Bool
deriving Repr, DecidableEq

/-- `ProjectContextResources.analyzeNpmDependencies`: build one entry per
declared name/version pair; a missing or malformed `package.json`
degrades to the empty result (the catch branch). -/
def analyzeNpmDependencies (p : Project) : ProjectDependencies :=
  match p.manifest with
  | none =>
      { packageManager := "npm", dependencies := [], devDependencies := [],
        totalCount := 0, lockFileExists := false }
  | some m =>
      let deps := (m.dependencies.getD []).map
        (fun kv => Dependency.mk kv.1 kv.2 kv.2 "production")
      let devDeps := (m.devDependencies.getD []).map
        (fun kv => Dependency.mk kv.1 kv.2 kv.2 "development")
      let lockFileExists := (resolvePath p.root ["package-lock.json"]).isSome
      { packageManager := "npm", dependencies := deps,
        devDependencies := devDeps,
        totalCount := deps.length + devDeps.length,
        lockFileExists := lockFileExists }

/-- `ProjectContextResources.getProjectDependencies`: full analysis for
npm, the empty structure with the detected manager name otherwise. -/
def getProjectDependencies (p : Project) : ProjectDependencies :=
  let packageManager := Resources.detectPackageManager p
  if packageManager = "npm" then analyzeNpmDependencies p
  else
    { packageManager := packageManager, dependencies := [],
      devDependencies := [], totalCount := 0, lockFileExists := false }

/-- The `ProjectOverview` payload. -/
structure ProjectOverview where
  name : String
  version : String
  description : String
  language : String
  framework : Option String
  packageManager : String
  lastModified : Nat
  fileCount : Nat
  sizeInBytes : Nat
  gitRepository : Option String
  gitBranch : Option String
deriving Repr, DecidableEq

/-- `ProjectContextResources.getProjectOverview`. -/
def getProjectOverview (p : Project) : ProjectOverview :=
  let stats := getProjectStats p
  let gitInfo := getGitInfo p
  { name := jsOrOS (p.manifest.bind Manifest.name)
      (jsOrS p.rootBase "Unknown Project"),
    version := jsOrOS (p.manifest.bind Manifest.version) "0.0.0",
    description := jsOrOS (p.manifest.bind Manifest.description)
      "No description available",
    language := detectPrimaryLanguage p,
    framework := detectFramework p.manifest,
    packageManager := Resources.detectPackageManager p,
    lastModified := stats.lastModified,
    fileCount := stats.fileCount,
    sizeInBytes := stats.sizeInBytes,
    gitRepository := gitInfo.gitRepository,
    gitBranch := gitInfo.gitBranch }

/-- `ProjectContextResources.getFileContent`: resolve the relative path
under the project root, reject directories, missing or unreadable files
and files over the 1 MiB ceiling; every failure is re-thrown by the
method's catch clause as the same `NotFoundError`. -/
def getFileContent (p : Project) (filePath : String) :
    Except JsError String :=
  match resolvePath p.root (pathSegs filePath) with
  | some (.file _ size content _ readable) =>
      if size > 1024 * 1024 then
        .error (notFoundError ("Cannot read file: " ++ filePath))
      else if readable then .ok content
      else .error (notFoundError ("Cannot read file: " ++ filePath))
  | _ => .error (notFoundError ("Cannot read file: " ++ filePath))

/-- `ProjectContextResources.getMimeTypeForFile`. -/
def getMimeTypeForFile (filePath : String) : String :=
  let ext := jsToLower (extname filePath)
  if ext = ".json" then "application/json"
  else if ext = ".js" then "application/javascript"
  else if ext = ".ts" then "text/typescript"
  else if ext = ".html" then "text/html"
  else if ext = ".css" then "text/css"
  else if ext = ".md" then "text/markdown"
  else if ext = ".txt" then "text/plain"
  else if ext = ".xml" then "application/xml"
  else if ext = ".yaml" then "application/yaml"
  else if ext = ".yml" then "application/yaml"
  else if ext = ".py" then "text/x-python"
  else if ext = ".java" then "text/x-java-source"
  else if ext = ".cpp" then "text/x-c++src"
  else if ext = ".c" then "text/x-csrc"
  else if ext = ".go" then "text/x-go"
  else if ext = ".rs" then "text/x-rust"
  else if ext = ".php" then "text/x-php"
  else if ext = ".rb" then "text/x-ruby"
  else if ext = ".swift" then "text/x-swift"
  else if ext = ".kt" then "text/x-kotlin"
  else if ext = ".cs" then "text/x-csharp"
  else "text/plain"

/-- Structured view of one `contents` element returned by
`readResource` (the JSON text serializes the carried value). -/
inductive ResourcePayload : Type where
  | overview (o : ProjectOverview)
  | tree (s : PS)
  | dependencies (d : ProjectDependencies)
  | fileText (mimeType : String) (text : String)

/-- Dispatch body of `ProjectContextResources.readResource`, before the
error-handling middleware is applied. -/
def readResourceInner (p : Project) (uri : String) :
    Except JsError ResourcePayload :=
  if uri = "context://project/overview" then
    .ok (.overview (getProjectOverview p))
  else if uri = "context://project/structure" then
    .ok (.tree (getProjectStructure p))
  else if uri = "context://project/dependencies" then
    .ok (.dependencies (getProjectDependencies p))
  else if jsStartsWith uri "context://file/" then
    -- `uri.replace('context://file/', '')` removes the first occurrence,
    -- which under the guard is the leading prefix.
    let filePath := String.mk (uri.toList.drop 15)
    (getFileContent p filePath).map
      (fun content => .fileText (getMimeTypeForFile filePath) content)
  else .error (notFoundError ("Resource not found: " ++ uri))

/-- `ProjectContextResources.readResource`: the dispatch body wrapped in
`errorHandlingMiddleware`. -/
def readResource (p : Project) (uri : String) :
    Except String ResourcePayload :=
  errorHandlingMiddleware (readResourceInner p uri)

/-! ## Tool executor (`src/mcp/tools.ts`) -/

/-- Kind of a search match. -/
inductive MatchType : Type where
  | filename
  | content
deriving Repr, DecidableEq

/-- A `SearchMatch` (`column`/`context` are declared by the interface but
never set by the implementation). -/
structure SearchMatch where
  file : String
  line : Option Nat := none
  column : Option Nat := none
  content : Option String := none
  context : Option String := none
  type : MatchType
deriving Repr, DecidableEq

/-- Options threaded through `searchInDirectory` (`filePattern` is
accepted but never consulted by the implementation). -/
structure SearchOptions where
  filePattern : Option String := none
  maxResults : Nat
  caseSensitive : Bool
  includeContent : Bool
deriving Repr, DecidableEq

/-- The line-scanning loop of the content match: lines are visited in
order while the collected results stay below `maxResults`; falsy (empty)
lines are skipped; a line containing the (case-adjusted) query appends a
content match carrying the 1-based line number and the raw line. -/
def contentLines (q : String) (cs : Bool) (rel : String) (maxResults : Nat) :
    List String → Nat → List SearchMatch → List SearchMatch
  | [], _, acc => acc
  | l :: rest, i, acc =>
      if acc.length ≥ maxResults then acc
      else
        let acc2 :=
          if l = "" then acc
          else
            let searchLine := if cs then l else jsToLower l
            let searchQuery := if cs then q else jsToLower q
            if jsIncludes searchLine searchQuery then
              acc ++ [{ file := rel, line := some (i + 1),
                        content := some l, type := MatchType.content }]
            else acc
        contentLines q cs rel maxResults rest (i + 1) acc2

/-- The content-matching half of the file handling inside
`searchInDirectory`'s loop: when content matching is enabled and the
budget is not exhausted, a file over the 1 MiB ceiling or unreadable is
skipped; otherwise, when the whole (case-adjusted) content contains the
query, the lines are scanned. -/
def contentPhase (q : String) (opts : SearchOptions) (rel : String)
    (size : Nat) (content : String) (readable : Bool)
    (acc1 : List SearchMatch) : List SearchMatch :=
  if opts.includeContent && acc1.length < opts.maxResults then
    if size > 1024 * 1024 then acc1
    else if !readable then acc1
    else
      let searchContent := if opts.caseSensitive then content
        else jsToLower content
      let searchQuery := if opts.caseSensitive then q else jsToLower q
      if jsIncludes searchContent searchQuery then
        contentLines q opts.caseSensitive rel opts.maxResults
          (splitOnChar '\n' content) 0 acc1
      else acc1
  else acc1

/-- Processing of one file entry inside `searchInDirectory`'s loop: a
filename substring match is recorded first, then the content phase
runs. -/
def searchFile (q : String) (opts : SearchOptions) (rel n : String)
    (size : Nat) (content : String) (readable : Bool)
    (acc : List SearchMatch) : List SearchMatch :=
  let nameMatch :=
    if opts.caseSensitive then jsIncludes n q
    else jsIncludes (jsToLower n) (jsToLower q)
  let acc1 :=
    if nameMatch then acc ++ [{ file := rel, type := MatchType.filename }]
    else acc
  contentPhase q opts rel size content readable acc1

/-- `ProjectContextTools.searchInDirectory`, expressed on a directory
listing: entries are visited in `readdir` order while the budget lasts;
skipped names are passed over; subdirectories are searched depth-first
(an unreadable one is swallowed by the catch clause); files are handled
by `searchFile`. -/
def searchList (q : String) (opts : SearchOptions) :
    List FSEntry → String → List SearchMatch → List SearchMatch
  | [], _, acc => acc
  | .dir n entries _ readable :: rest, pre, acc =>
      if acc.length ≥ opts.maxResults then acc
      else
        let acc2 :=
          if skipEntry n then acc
          else if readable then searchList q opts entries (relOf pre n) acc
          else acc
        searchList q opts rest pre acc2
  | .file n size content _ readable :: rest, pre, acc =>
      if acc.length ≥ opts.maxResults then acc
      else
        let acc2 :=
          if skipEntry n then acc
          else searchFile q opts (relOf pre n) n size content readable acc
        searchList q opts rest pre acc2

/-- Unbounded count of matching lines of one file's content. -/
def countLines (q : String) (cs : Bool) (lines : List String) : Nat :=
  (lines.filter (fun l =>
    !(l == "") &&
      jsIncludes (if cs then l else jsToLower l)
        (if cs then q else jsToLower q))).length

/-- Unbounded number of content matches one file contributes when the
budget is never exhausted. -/
def countContent (q : String) (opts : SearchOptions) (size : Nat)
    (content : String) (readable : Bool) : Nat :=
  if opts.includeContent then
    if size > 1024 * 1024 then 0
    else if !readable then 0
    else
      let searchContent := if opts.caseSensitive then content
        else jsToLower content
      let searchQuery := if opts.caseSensitive then q else jsToLower q
      if jsIncludes searchContent searchQuery then
        countLines q opts.caseSensitive (splitOnChar '\n' content)
      else 0
  else 0

/-- Unbounded number of matches one file contributes when the budget is
never exhausted. -/
def countFile (q : String) (opts : SearchOptions) (n : String) (size : Nat)
    (content : String) (readable : Bool) : Nat :=
  let nameMatch :=
    if opts.caseSensitive then jsIncludes n q
    else jsIncludes (jsToLower n) (jsToLower q)
  let nameCount := if nameMatch then 1 else 0
  nameCount + countContent q opts size content readable

/-- Unbounded number of matches a directory listing contains under the
search policy (skip rules and readability as in `searchList`). -/
def countList (q : String) (opts : SearchOptions) : List FSEntry → Nat
  | [] => 0
  | .dir n entries _ readable :: rest =>
      (if skipEntry n then 0
       else if readable then countList q opts entries
       else 0) + countList q opts rest
  | .file n size content _ readable :: rest =>
      (if skipEntry n then 0
       else countFile q opts n size content readable) +
        countList q opts rest

/-- The `SearchResult` payload (`searchTime` is the difference of the two
`Date.now()` readings around the walk). -/
structure SearchResult where
  query : String
  totalResults : Nat
  results : List SearchMatch
  searchTime : Int
deriving Repr, DecidableEq

/-- Parameters of `search_project` after the executor's extraction. -/
structure SearchProjectParams where
  query : String
  filePattern : Option String := none
  maxResults : Option Nat := none
  caseSensitive : Option Bool := none
  includeContent : Option Bool := none
deriving Repr, DecidableEq

/-- `ProjectContextTools.searchProject`.  `t0` and `t1` are the
`Date.now()` readings taken before and after the walk.  The method's own
catch clause (`Search operation failed`) has no reachable trigger in the
model: the walk itself swallows its I/O errors. -/
def searchProject (p : Project) (params : SearchProjectParams)
    (t0 t1 : Int) : Except JsError SearchResult :=
  if params.query = "" then
    .error (validationError "Search query is required")
  else
    let opts : SearchOptions :=
      { filePattern := params.filePattern,
        maxResults := params.maxResults.getD 100,
        caseSensitive := params.caseSensitive.getD false,
        includeContent := params.includeContent.getD true }
    let results :=
      match p.root with
      | .dir _ es _ true => searchList params.query opts es "" []
      | _ => []
    .ok { query := params.query, totalResults := results.length,
          results := results, searchTime := t1 - t0 }

/-- A `NavigationItem`. -/
structure NavigationItem where
  name : String
  type : NodeType
  path : String
  size : Option Nat := none
  lastModified : Nat
  extension : Option String := none
deriving Repr, DecidableEq

/-- The `NavigationResult` payload (`contents` is initialized to the
empty array and only filled for directories; `parent` is never set). -/
structure NavigationResult where
  currentPath : String
  type : NodeType
  contents : List NavigationItem
  breadcrumb : List String
deriving Repr, DecidableEq

/-- Parameters of `navigate_structure` (`depth` is accepted and given a
default by the implementation but never used: the listing is single
level). -/
structure NavigateStructureParams where
  path : Option String := none
  depth : Option Nat := none
  includeFiles : Option Bool := none
  filterExtensions : Option (List String) := none
deriving Repr, DecidableEq

/-- The comparator applied to `result.contents`. -/
def navLe (a b : NavigationItem) : Bool :=
  if a.type ≠ b.type then a.type = NodeType.directory
  else locLe a.name b.name

/-- Items of a directory listing in `navigateStructure`: skip rules as
everywhere, then the extension filter (an empty filter array is truthy
and excludes every file), then the `includeFiles` switch. -/
def navItems (entries : List FSEntry) (path : String) (includeFiles : Bool)
    (filterExtensions : Option (List String)) : List NavigationItem :=
  entries.filterMap (fun e =>
    if skipEntry e.name then none
    else
      match e with
      | .dir n _ mt _ =>
          some { name := n, type := NodeType.directory, path := relOf path n,
                 lastModified := mt }
      | .file n size _ mt _ =>
          let filteredOut :=
            match filterExtensions with
            | some exts => !(exts.contains (extname n))
            | none => false
          if filteredOut then none
          else if !includeFiles then none
          else
            some { name := n, type := NodeType.file, path := relOf path n,
                   size := some size, lastModified := mt,
                   extension := some (extname n) })

/-- `ProjectContextTools.navigateStructure`: resolve the target path;
any failure inside the method's `try` (missing target, unreadable
directory) is re-thrown by its catch clause as a `NotFoundError`. -/
def navigateStructure (p : Project) (params : NavigateStructureParams) :
    Except JsError NavigationResult :=
  let path := params.path.getD ""
  let includeFiles := params.includeFiles.getD true
  match resolvePath p.root (pathSegs path) with
  | none =>
      .error (notFoundError ("Path not found or inaccessible: " ++ path))
  | some (.file _ _ _ _ _) =>
      .ok { currentPath := jsOrS path ".", type := NodeType.file,
            contents := [], breadcrumb := pathSegs path }
  | some (.dir _ entries _ readable) =>
      if readable then
        .ok { currentPath := jsOrS path ".", type := NodeType.directory,
              contents :=
                (navItems entries path includeFiles
                  params.filterExtensions).mergeSort navLe,
              breadcrumb := pathSegs path }
      else
        .error (notFoundError ("Path not found or inaccessible: " ++ path))

/-- A `SecurityVulnerability` as the tools interface declares it. -/
structure SecurityVulnerability where
  package : String
  severity : String
  title : String
  description : String
  recommendation : String
  affectedVersions : String
deriving Repr, DecidableEq

/-- `ProjectContextTools.performSecurityScan`: the placeholder scan,
always empty. -/
def performSecurityScan : List SecurityVulnerability := []

/-- A detailed dependency entry of `analyze_dependencies`. -/
structure DependencyDetail where
  name : String
  version : String
  requestedVersion : String
  type : String
deriving Repr, DecidableEq

/-- The structured `DependencyAnalysisResult` (its textual renderings are
not modelled; `dependencies = none` models the field being absent for the
summary format). -/
structure DependencyAnalysisResult where
  packageManager : String
  totalDependencies : Nat
  productionDependencies : Nat
  developmentDependencies : Nat
  outdatedPackages : Nat
  vulnerabilities : List SecurityVulnerability
  dependencies : Option (List DependencyDetail)
deriving Repr, DecidableEq

/-- The three output formats of `analyze_dependencies`. -/
inductive OutputFormat : Type where
  | summary
  | detailed
  | json
deriving Repr, DecidableEq

/-- Parameters of `analyze_dependencies`. -/
structure AnalyzeDependenciesParams where
  includeDevDependencies : Option Bool := none
  checkSecurity : Option Bool := none
  outputFormat : Option OutputFormat := none
deriving Repr, DecidableEq

namespace Tools

/-- `ProjectContextTools.detectPackageManager`: unlike the resources
variant this one defaults to "npm" when no lock file matches, and to
"unknown" only when the root listing fails. -/
def detectPackageManager (p : Project) : String :=
  match p.rootEntries with
  | none => "unknown"
  | some es =>
      let files := es.map FSEntry.name
      if files.contains "package-lock.json" then "npm"
      else if files.contains "yarn.lock" then "yarn"
      else if files.contains "pnpm-lock.yaml" then "pnpm"
      else "npm"

end Tools

/-- `ProjectContextTools.analyzeDependencies`: count (and, for non-summary
formats, list) the declared dependency entries; a missing or malformed
`package.json` is re-thrown by the catch clause as a `ValidationError`. -/
def analyzeDependencies (p : Project) (params : AnalyzeDependenciesParams) :
    Except JsError DependencyAnalysisResult :=
  let includeDev := params.includeDevDependencies.getD true
  let checkSecurity := params.checkSecurity.getD true
  let fmt := params.outputFormat.getD OutputFormat.summary
  match p.manifest with
  | none =>
      .error (validationError
        "Unable to analyze dependencies. Ensure package.json exists and is valid.")
  | some m =>
      let prodEntries := m.dependencies.getD []
      let devEntries := if includeDev then m.devDependencies.getD [] else []
      let details :=
        if fmt ≠ OutputFormat.summary then
          some (prodEntries.map
              (fun kv => DependencyDetail.mk kv.1 kv.2 kv.2 "production") ++
            devEntries.map
              (fun kv => DependencyDetail.mk kv.1 kv.2 kv.2 "development"))
        else none
      .ok { packageManager := Tools.detectPackageManager p,
            totalDependencies := prodEntries.length + devEntries.length,
            productionDependencies := prodEntries.length,
            developmentDependencies := devEntries.length,
            outdatedPackages := 0,
            vulnerabilities := if checkSecurity then performSecurityScan
              else [],
            dependencies := details }

/-- Parameters of `get_recent_changes`. -/
structure GetRecentChangesParams where
  days : Option Nat := none
  maxCommits : Option Nat := none
  includeMerges : Option Bool := none
  author : Option String := none
deriving Repr, DecidableEq

/-- Structured result of a tool call (`executeTool` serializes these to
text; the text itself is not modelled).  `git` carries the parameters the
placeholder response echoes back. -/
inductive ToolResult : Type where
  | deps (r : DependencyAnalysisResult)
  | git (days maxCommits : Nat) (includeMerges : Bool)
      (author : Option String)
  | nav (r : NavigationResult)
  | search (r : SearchResult)
deriving Repr, DecidableEq

/-- The raw parameter record of a `callTool` request (absent fields are
`none`; fields of the wrong runtime type are not modelled, so the
`typeof` guards of the `search_project` branch always pass for present
fields). -/
structure ToolCallParams where
  includeDevDependencies : Option Bool := none
  checkSecurity : Option Bool := none
  outputFormat : Option OutputFormat := none
  days : Option Nat := none
  maxCommits : Option Nat := none
  includeMerges : Option Bool := none
  author : Option String := none
  path : Option String := none
  depth : Option Nat := none
  includeFiles : Option Bool := none
  filterExtensions : Option (List String) := none
  query : Option String := none
  filePattern : Option String := none
  maxResults : Option Nat := none
  caseSensitive : Option Bool := none
  includeContent : Option Bool := none
deriving Repr, DecidableEq

/-- Dispatch body of `ProjectContextTools.executeTool` before the
error-handling middleware: the switch over the tool name.  In the
`search_project` branch a falsy (absent or empty) query is rejected with
a `ValidationError`, falsy `filePattern`/`maxResults` values are dropped
(so `maxResults = 0` silently falls back to the default 100), and an
unknown tool name is a `NotFoundError`. -/
def executeToolInner (p : Project) (toolName : String)
    (params : ToolCallParams) (t0 t1 : Int) : Except JsError ToolResult :=
  if toolName = "analyze_dependencies" then
    (analyzeDependencies p
      { includeDevDependencies := params.includeDevDependencies,
        checkSecurity := params.checkSecurity,
        outputFormat := params.outputFormat }).map ToolResult.deps
  else if toolName = "get_recent_changes" then
    .ok (ToolResult.git (params.days.getD 7) (params.maxCommits.getD 50)
      (params.includeMerges.getD false) params.author)
  else if toolName = "navigate_structure" then
    (navigateStructure p
      { path := params.path, depth := params.depth,
        includeFiles := params.includeFiles,
        filterExtensions := params.filterExtensions }).map ToolResult.nav
  else if toolName = "search_project" then
    match params.query with
    | none => .error (validationError "Search query is required")
    | some q =>
        if q = "" then .error (validationError "Search query is required")
        else
          (searchProject p
            { query := q,
              filePattern := match params.filePattern with
                | some s => if s = "" then none else some s
                | none => none,
              maxResults := match params.maxResults with
                | some k => if k = 0 then none else some k
                | none => none,
              caseSensitive := params.caseSensitive,
              includeContent := params.includeContent } t0 t1).map
            ToolResult.search
  else .error (notFoundError ("Unknown tool: " ++ toolName))

/-- `ProjectContextTools.executeTool`: the dispatch body wrapped in
`errorHandlingMiddleware`. -/
def executeTool (p : Project) (toolName : String) (params : ToolCallParams)
    (t0 t1 : Int) : Except String ToolResult :=
  errorHandlingMiddleware (executeToolInner p toolName params t0 t1)

/-! ## Order-theoretic properties of the collation model -/

theorem lexLtNat_irrefl : ∀ a, lexLtNat a a = false := by
  intro a
  induction a with
  | nil => rfl
  | cons x xs ih => simp [lexLtNat, ih]

theorem lexLtNat_asymm : ∀ a b, lexLtNat a b = true → lexLtNat b a = false := by
  intro a
  induction a with
  | nil => intro b h; cases b <;> simp [lexLtNat]
  | cons x xs ih =>
      intro b h
      cases b with
      | nil => simp [lexLtNat] at h
      | cons y ys =>
          simp [lexLtNat] at h ⊢
          rcases h with h | ⟨h1, h2⟩
          · constructor
            · omega
            · intro he; omega
          · subst h1
            constructor
            · omega
            · intro _; exact ih ys h2

theorem lexLtNat_trans :
    ∀ a b c, lexLtNat a b = true → lexLtNat b c = true →
      lexLtNat a c = true := by
  intro a
  induction a with
  | nil =>
      intro b c hab hbc
      cases b with
      | nil => simp [lexLtNat] at hab
      | cons y ys =>
          cases c with
          | nil => simp [lexLtNat] at hbc
          | cons z zs => simp [lexLtNat]
  | cons x xs ih =>
      intro b c hab hbc
      cases b with
      | nil => simp [lexLtNat] at hab
      | cons y ys =>
          cases c with
          | nil => simp [lexLtNat] at hbc
          | cons z zs =>
              simp [lexLtNat] at hab hbc ⊢
              rcases hab with hab | ⟨hab1, hab2⟩
              · rcases hbc with hbc | ⟨hbc1, hbc2⟩
                · exact Or.inl (by omega)
                · exact Or.inl (by omega)
              · subst hab1
                rcases hbc with hbc | ⟨hbc1, hbc2⟩
                · exact Or.inl hbc
                · exact Or.inr ⟨hbc1, ih ys zs hab2 hbc2⟩

theorem lexLtNat_connex :
    ∀ a b, lexLtNat a b = false → lexLtNat b a = false → a = b := by
  intro a
  induction a with
  | nil =>
      intro b hab _
      cases b with
      | nil => rfl
      | cons y ys => simp [lexLtNat] at hab
  | cons x xs ih =>
      intro b hab hba
      cases b with
      | nil => simp [lexLtNat] at hba
      | cons y ys =>
          simp [lexLtNat] at hab hba
          have hxy : x = y := by omega
          subst hxy
          have := ih ys (hab.2 rfl) (hba.2 rfl)
          rw [this]

theorem locLt_asymm (a b : String) (h : locLt a b = true) :
    locLt b a = false := by
  simp [locLt] at h ⊢
  rcases h with h | ⟨h1, h2⟩
  · constructor
    · exact lexLtNat_asymm _ _ h
    · intro he
      rw [he] at h
      simp [lexLtNat_irrefl] at h
  · rw [h1]
    constructor
    · exact lexLtNat_irrefl _
    · intro _
      exact lexLtNat_asymm _ _ h2

theorem locLt_keys_eq (a b : String) (hab : locLt a b = false)
    (hba : locLt b a = false) :
    primaryKey a = primaryKey b ∧ tertiaryKey a = tertiaryKey b := by
  simp [locLt] at hab hba
  have hp : primaryKey a = primaryKey b :=
    lexLtNat_connex _ _ hab.1 hba.1
  refine ⟨hp, lexLtNat_connex _ _ (hab.2 hp) (hba.2 hp.symm)⟩

theorem locLt_trans (a b c : String) (hab : locLt a b = true)
    (hbc : locLt b c = true) : locLt a c = true := by
  simp [locLt] at hab hbc ⊢
  rcases hab with hab | ⟨hab1, hab2⟩
  · rcases hbc with hbc | ⟨hbc1, hbc2⟩
    · exact Or.inl (lexLtNat_trans _ _ _ hab hbc)
    · exact Or.inl (hbc1 ▸ hab)
  · rcases hbc with hbc | ⟨hbc1, hbc2⟩
    · exact Or.inl (hab1 ▸ hbc)
    · exact Or.inr ⟨hab1.trans hbc1, lexLtNat_trans _ _ _ hab2 hbc2⟩

theorem locLe_total (a b : String) : locLe a b = true ∨ locLe b a = true := by
  by_cases h : locLt b a = true
  · right
    simp [locLe, locLt_asymm _ _ h]
  · left
    simp [locLe]
    simpa using h

theorem locLe_trans (a b c : String) (hab : locLe a b = true)
    (hbc : locLe b c = true) : locLe a c = true := by
  simp [locLe] at hab hbc ⊢
  by_cases hca : locLt c a = true
  · exfalso
    by_cases habx : locLt a b = true
    · have := locLt_trans c a b hca habx
      simp [this] at hbc
    · have hk := locLt_keys_eq a b (by simpa using habx) hab
      have : locLt c b = true := by
        simp [locLt] at hca ⊢
        rw [← hk.1, ← hk.2]
        exact hca
      simp [this] at hbc
  · simpa using hca

theorem nodeLe_total (a b : PS) : (nodeLe a b || nodeLe b a) = true := by
  by_cases h : a.type = b.type
  · rcases locLe_total a.name b.name with h1 | h1 <;> simp [nodeLe, h, h1]
  · cases ha : a.type <;> cases hb : b.type <;>
      simp_all [nodeLe, NodeType.file, NodeType.directory]

theorem nodeLe_trans (a b c : PS) (hab : nodeLe a b = true)
    (hbc : nodeLe b c = true) : nodeLe a c = true := by
  cases ha : a.type <;> cases hb : b.type <;> cases hc : c.type <;>
    simp_all [nodeLe] <;> exact locLe_trans _ _ _ hab hbc

theorem navLe_total (a b : NavigationItem) :
    (navLe a b || navLe b a) = true := by
  by_cases h : a.type = b.type
  · rcases locLe_total a.name b.name with h1 | h1 <;> simp [navLe, h, h1]
  · cases ha : a.type <;> cases hb : b.type <;>
      simp_all [navLe, NodeType.file, NodeType.directory]

theorem navLe_trans (a b c : NavigationItem) (hab : navLe a b = true)
    (hbc : navLe b c = true) : navLe a c = true := by
  cases ha : a.type <;> cases hb : b.type <;> cases hc : c.type <;>
    simp_all [navLe] <;> exact locLe_trans _ _ _ hab hbc

/-! ## Sortedness of the structure tree -/

/-- Ordering the structure resource promises between two adjacent
children: a directory never follows a file, and within one kind the
names are in the modelled locale-collation order. -/
def childOrdered (a b : PS) : Prop :=
  (a.type = NodeType.directory ∧ b.type = NodeType.file) ∨
    (a.type = b.type ∧ locLe a.name b.name = true)

theorem nodeLe_imp_childOrdered (a b : PS) (h : nodeLe a b = true) :
    childOrdered a b := by
  by_cases he : a.type = b.type
  · right
    refine ⟨he, ?_⟩
    simpa [nodeLe, he] using h
  · left
    simp [nodeLe, he] at h
    cases hb : b.type
    · exact ⟨h, rfl⟩
    · exact absurd (h.trans hb.symm) he

/-- Every directory node of the tree has its `children` list sorted in
the promised order, recursively at every level. -/
inductive TreeSorted : PS → Prop where
  | leaf : ∀ p t n e s m, TreeSorted (PS.mk p t n e s none m)
  | node : ∀ p t n e s l m, l.Pairwise childOrdered →
      (∀ x ∈ l, TreeSorted x) → TreeSorted (PS.mk p t n e s (some l) m)

theorem buildChildren_mem (rootBase : String) :
    ∀ (es : List FSEntry) (rel : String) (x : PS),
      x ∈ buildChildren rootBase es rel →
      ∃ e2 ∈ es, ∃ r2, x = buildFileTree rootBase e2 r2 := by
  intro es
  induction es with
  | nil => intro rel x h; simp [buildChildren] at h
  | cons e rest ih =>
      intro rel x h
      rw [buildChildren] at h
      by_cases hs : skipEntry e.name
      · rw [if_pos hs] at h
        obtain ⟨e2, he2, r2, hx⟩ := ih rel x h
        exact ⟨e2, List.mem_cons_of_mem _ he2, r2, hx⟩
      · rw [if_neg hs] at h
        rcases List.mem_cons.mp h with h | h
        · exact ⟨e, List.mem_cons_self _ _, relOf rel e.name, h⟩
        · obtain ⟨e2, he2, r2, hx⟩ := ih rel x h
          exact ⟨e2, List.mem_cons_of_mem _ he2, r2, hx⟩

theorem buildFileTree_sorted_fuel :
    ∀ (fuel : Nat) (rootBase : String) (e : FSEntry) (rel : String),
      sizeOf e ≤ fuel → TreeSorted (buildFileTree rootBase e rel) := by
  intro fuel
  induction fuel with
  | zero =>
      intro rootBase e rel h
      cases e <;> simp_all
  | succ n ih =>
      intro rootBase e rel h
      match e with
      | .file nm size content mtime readable =>
          rw [buildFileTree]
          exact TreeSorted.leaf _ _ _ _ _ _
      | .dir nm entries mtime readable =>
          rw [buildFileTree]
          by_cases hr : readable = true
          · rw [if_pos hr]
            refine TreeSorted.node _ _ _ _ _ _ _ ?_ ?_
            · exact List.Pairwise.imp (fun {a b} hab =>
                nodeLe_imp_childOrdered a b hab)
                (List.sorted_mergeSort nodeLe_trans nodeLe_total
                  (buildChildren rootBase entries rel))
            · intro x hx
              rw [List.mem_mergeSort] at hx
              obtain ⟨e2, he2, r2, hx2⟩ :=
                buildChildren_mem rootBase entries rel x hx
              have hse : sizeOf e2 < sizeOf entries :=
                List.sizeOf_lt_of_mem he2
              have hsz : sizeOf entries <
                  sizeOf (FSEntry.dir nm entries mtime readable) := by
                simp only [FSEntry.dir.sizeOf_spec]
                omega
              subst hx2
              exact ih rootBase e2 r2 (by omega)
          · rw [if_neg hr]
            exact TreeSorted.leaf _ _ _ _ _ _

theorem buildFileTree_sorted (rootBase : String) (e : FSEntry)
    (rel : String) : TreeSorted (buildFileTree rootBase e rel) :=
  buildFileTree_sorted_fuel (sizeOf e) rootBase e rel (Nat.le_refl _)

/-! ## C1: ordering of structure children -/

/-- Code-unit key of a name, for the case-sensitive lexicographic order
the specification claims as tie-break. -/
def cpKey (s : String) : List Nat := s.toList.map Char.toNat

/-- The name order asserted by the specification sentence: alphabetical
(case-insensitive) first, ties among names equal ignoring case broken by
case-sensitive lexicographic (code-unit) order.  This definition follows
the claim's words, to be compared with the source's `localeCompare`
order. -/
def claimNameLe (a b : String) : Bool :=
  lexLtNat (primaryKey a) (primaryKey b) ||
    (primaryKey a == primaryKey b && !(lexLtNat (cpKey b) (cpKey a)))

/-- Adjacent-pair ordering claimed by the specification for a children
list: directories before files, and within a kind `claimNameLe` on
names. -/
def claimChildOrderedB (a b : PS) : Bool :=
  (a.type == NodeType.directory && b.type == NodeType.file) ||
    (a.type == b.type && claimNameLe a.name b.name)

/-- Checker for the claimed ordering of one children list. -/
def claimSortedChildrenB : List PS → Bool
  | [] => true
  | [_] => true
  | a :: b :: rest =>
      claimChildOrderedB a b && claimSortedChildrenB (b :: rest)

/-- C1 (amended): for every project, reading
`context://project/structure` succeeds with the tree `buildFileTree`
produces, and in that tree every directory's children are sorted with
all directories preceding all files at every level and, within each
kind, names in the modelled `localeCompare` (locale-collation) order:
alphabetical ignoring case, names equal ignoring case ordered lowercase
first — not in case-sensitive lexicographic order. -/
theorem structure_resource_children_sorted (p : Project) :
    readResource p "context://project/structure" =
      .ok (ResourcePayload.tree (getProjectStructure p)) ∧
    TreeSorted (getProjectStructure p) := by
  constructor
  · simp [readResource, readResourceInner, errorHandlingMiddleware]
  · exact buildFileTree_sorted p.rootBase p.root ""

/-- A project whose root holds two files named `A` and `a` (listed in
`readdir` order `A`, `a`). -/
def caseTieProject : Project :=
  ⟨FSEntry.dir "p"
    [FSEntry.file "A" 1 "" 0 true, FSEntry.file "a" 2 "" 0 true] 0 true,
   "p", none⟩

/-- C1 counterexample: on `caseTieProject` the code emits the children
in the order `a`, `A` (the `localeCompare` order puts lowercase first on
case ties), which violates the claimed case-sensitive lexicographic
tie-break order (`A` before `a`). -/
theorem structure_case_tie_counterexample :
    ((getProjectStructure caseTieProject).children.getD []).map PS.name =
      ["a", "A"] ∧
    claimSortedChildrenB
      ((getProjectStructure caseTieProject).children.getD []) = false := by
  constructor <;>
    simp [caseTieProject, getProjectStructure, buildFileTree, buildChildren,
      skipEntry, relOf, jsOrS, jsStartsWith, listPrefixOf, List.mergeSort,
      List.merge, nodeLe, PS.type, PS.name, FSEntry.name, extname,
      splitOnChar, splitCharGo, List.range_succ, List.find?, locLe, locLt,
      primaryKey, tertiaryKey, charPrimary, charTertiary, lexLtNat,
      PS.children, claimSortedChildrenB, claimChildOrderedB, claimNameLe,
      cpKey]

/-! ## C6: error classification by name -/

/-- C6: `errorHandlingMiddleware` classifies a thrown error by its
`name`: `ValidationError` is re-thrown as `Invalid request: <message>`,
`NotFoundError` as `Resource not found: <message>`, `PermissionError`
as `Permission denied: <message>` (each preserving the original
message), and every other error as exactly `Internal server error`,
discarding the original message. -/
theorem middleware_classifies_by_name (e : JsError) :
    (e.name = "ValidationError" →
      (errorHandlingMiddleware (Except.error e) : Except String Unit) =
        Except.error ("Invalid request: " ++ e.message)) ∧
    (e.name = "NotFoundError" →
      (errorHandlingMiddleware (Except.error e) : Except String Unit) =
        Except.error ("Resource not found: " ++ e.message)) ∧
    (e.name = "PermissionError" →
      (errorHandlingMiddleware (Except.error e) : Except String Unit) =
        Except.error ("Permission denied: " ++ e.message)) ∧
    (e.name ≠ "ValidationError" → e.name ≠ "NotFoundError" →
      e.name ≠ "PermissionError" →
      (errorHandlingMiddleware (Except.error e) : Except String Unit) =
        Except.error "Internal server error") := by
  refine ⟨?_, ?_, ?_, ?_⟩
  · intro h; simp [errorHandlingMiddleware, classifyError, h]
  · intro h; simp [errorHandlingMiddleware, classifyError, h]
  · intro h; simp [errorHandlingMiddleware, classifyError, h]
  · intro h1 h2 h3
    simp [errorHandlingMiddleware, classifyError, h1, h2, h3]

/-- C6 witness: the classification evaluated on four concrete errors,
one per branch. -/
theorem middleware_classifies_by_name_witness :
    (errorHandlingMiddleware
        (Except.error ⟨"ValidationError", "bad field"⟩) :
      Except String Unit) = Except.error "Invalid request: bad field" ∧
    (errorHandlingMiddleware (Except.error ⟨"NotFoundError", "gone"⟩) :
      Except String Unit) = Except.error "Resource not found: gone" ∧
    (errorHandlingMiddleware (Except.error ⟨"PermissionError", "no"⟩) :
      Except String Unit) = Except.error "Permission denied: no" ∧
    (errorHandlingMiddleware (Except.error ⟨"TypeError", "secret"⟩) :
      Except String Unit) = Except.error "Internal server error" :=
  ⟨(middleware_classifies_by_name ⟨"ValidationError", "bad field"⟩).1 rfl,
   (middleware_classifies_by_name ⟨"NotFoundError", "gone"⟩).2.1 rfl,
   (middleware_classifies_by_name ⟨"PermissionError", "no"⟩).2.2.1 rfl,
   (middleware_classifies_by_name ⟨"TypeError", "secret"⟩).2.2.2
     (by decide) (by decide) (by decide)⟩

/-! ## C10: rejection leaves the limiter state unchanged -/

/-- C10: when `checkLimit` rejects a caller, the `requests` map is left
exactly as it was — no timestamp is recorded and the pruned list
computed during the check is not written back. -/
theorem checkLimit_reject_preserves_state (rl : RateLimiter) (s : RLState)
    (c : String) (now : Int) (h : (checkLimit rl s c now).1 = false) :
    (checkLimit rl s c now).2 = s := by
  by_cases hcond :
      (((rlGet s c).getD []).filter
        (fun timestamp => now - timestamp < rl.windowMs)).length ≥
        rl.maxRequests
  · simp [checkLimit, hcond]
  · simp [checkLimit, hcond] at h

/-- C10 witness: a limiter allowing zero requests rejects immediately
and returns the untouched (empty) map. -/
theorem checkLimit_reject_preserves_state_witness :
    (checkLimit ⟨0, 1000⟩ [] "client" 5).1 = false ∧
    (checkLimit ⟨0, 1000⟩ [] "client" 5).2 = [] :=
  ⟨rfl, checkLimit_reject_preserves_state ⟨0, 1000⟩ [] "client" 5 rfl⟩

/-! ## C8: rate limiter scenario at maxRequests = 2 -/

/-- C8: with `maxRequests = 2`, two requests admitted within one window
are followed by a rejected third request in the same window, and a
request made after the window has elapsed since the admitted ones is
admitted again. -/
theorem rate_limiter_two_per_window (W t1 t2 t3 t4 : Int) (c : String)
    (h21 : t2 - t1 < W)
    (h31 : t3 - t1 < W) (h32 : t3 - t2 < W)
    (h41 : W ≤ t4 - t1) (h42 : W ≤ t4 - t2) :
    let rl : RateLimiter := ⟨2, W⟩
    let r1 := checkLimit rl [] c t1
    let r2 := checkLimit rl r1.2 c t2
    let r3 := checkLimit rl r2.2 c t3
    let r4 := checkLimit rl r3.2 c t4
    r1.1 = true ∧ r2.1 = true ∧ r3.1 = false ∧ r4.1 = true := by
  intro rl r1 r2 r3 r4
  have e1 : r1 = (true, [(c, [t1])]) := by
    simp [r1, checkLimit, rlGet, rlSet]
  have e2 : r2 = (true, [(c, [t1, t2])]) := by
    simp [r2, e1, checkLimit, rlGet, rlSet, h21]
  have e3 : r3 = (false, [(c, [t1, t2])]) := by
    simp [r3, e2, checkLimit, rlGet, rlSet, h31, h32]
  have e4 : r4.1 = true := by
    simp [r4, e3, checkLimit, rlGet, rlSet, not_lt.mpr h41,
      not_lt.mpr h42]
  exact ⟨by simp [e1], by simp [e2], by simp [e3], e4⟩

/-- C8 witness: the scenario instantiated at a 10 ms window with
requests at times 0, 1, 2 and 10. -/
theorem rate_limiter_two_per_window_witness :
    let rl : RateLimiter := ⟨2, 10⟩
    let r1 := checkLimit rl [] "client" 0
    let r2 := checkLimit rl r1.2 "client" 1
    let r3 := checkLimit rl r2.2 "client" 2
    let r4 := checkLimit rl r3.2 "client" 11
    r1.1 = true ∧ r2.1 = true ∧ r3.1 = false ∧ r4.1 = true :=
  rate_limiter_two_per_window 10 0 1 2 11 "client" (by decide) (by decide)
    (by decide) (by decide) (by decide)

/-! ## C5: unrecognized URIs -/

theorem listPrefixOf_append (pat l1 l2 : List Char)
    (h : listPrefixOf pat l1 = true) :
    listPrefixOf pat (l1 ++ l2) = true := by
  induction pat generalizing l1 with
  | nil => simp [listPrefixOf]
  | cons c cs ih =>
      cases l1 with
      | nil => simp [listPrefixOf] at h
      | cons d ds =>
          simp [listPrefixOf] at h ⊢
          exact ⟨h.1, ih ds h.2⟩

/-- C5: `readResource` on a URI that is none of the three exact resource
URIs and does not start with `context://file/` fails with the
NotFound-classified message (prefixed `Resource not found`), which in
particular is never the Internal classification. -/
theorem unknown_uri_is_not_found (p : Project) (uri : String)
    (h1 : uri ≠ "context://project/overview")
    (h2 : uri ≠ "context://project/structure")
    (h3 : uri ≠ "context://project/dependencies")
    (h4 : jsStartsWith uri "context://file/" = false) :
    readResource p uri =
      .error ("Resource not found: Resource not found: " ++ uri) ∧
    jsStartsWith ("Resource not found: Resource not found: " ++ uri)
      "Resource not found" = true ∧
    ("Resource not found: Resource not found: " ++ uri) ≠
      "Internal server error" := by
  refine ⟨?_, ?_, ?_⟩
  · simp [readResource, readResourceInner, errorHandlingMiddleware,
      classifyError, notFoundError, h1, h2, h3, h4]
    rw [← String.append_assoc]
    rfl
  · have hlit : listPrefixOf "Resource not found".toList
        "Resource not found: Resource not found: ".toList = true := by
      decide
    have hdata : ("Resource not found: Resource not found: " ++ uri).toList =
        "Resource not found: Resource not found: ".toList ++ uri.toList := by
      simp [String.toList]
    simp only [jsStartsWith, hdata]
    exact listPrefixOf_append _ _ _ hlit
  · intro hc
    have hdata := congrArg (fun s => s.toList.length) hc
    simp [String.toList] at hdata

/-- An empty project rooted at a readable directory, used to instantiate
scenario witnesses. -/
def emptyProject : Project := ⟨FSEntry.dir "p" [] 0 true, "p", none⟩

/-- C5 witness: the unrecognized URI `context://nope` on a concrete
project. -/
theorem unknown_uri_is_not_found_witness :
    readResource emptyProject "context://nope" =
      .error ("Resource not found: Resource not found: " ++
        "context://nope") ∧
    jsStartsWith ("Resource not found: Resource not found: " ++
      "context://nope") "Resource not found" = true ∧
    ("Resource not found: Resource not found: " ++ "context://nope") ≠
      "Internal server error" :=
  unknown_uri_is_not_found emptyProject "context://nope" (by decide)
    (by decide) (by decide) (by decide)

/-! ## C3: analyze_dependencies totals -/

/-- C3: for a manifest declaring N production and M development
dependency entries, the `analyze_dependencies` tool reports
`totalDependencies = N + M` when `includeDevDependencies` is true and
`totalDependencies = N` when it is false. -/
theorem analyze_dependencies_totals (p : Project) (m : Manifest)
    (l1 l2 : List (String × String)) (params : ToolCallParams)
    (t0 t1 : Int) (hm : p.manifest = some m)
    (hd : m.dependencies = some l1) (hdd : m.devDependencies = some l2) :
    (∃ r, executeTool p "analyze_dependencies"
        { params with includeDevDependencies := some true } t0 t1 =
          .ok (ToolResult.deps r) ∧
        r.totalDependencies = l1.length + l2.length) ∧
    (∃ r, executeTool p "analyze_dependencies"
        { params with includeDevDependencies := some false } t0 t1 =
          .ok (ToolResult.deps r) ∧
        r.totalDependencies = l1.length) := by
  constructor <;>
    simp [executeTool, executeToolInner, errorHandlingMiddleware,
      analyzeDependencies, hm, hd, hdd, Except.map]

/-- C3 witness: a manifest with one production and two development
dependencies, analyzed both ways. -/
theorem analyze_dependencies_totals_witness :
    (∃ r, executeTool
        ⟨FSEntry.dir "p" [] 0 true, "p",
         some { dependencies := some [("lodash", "^4.0.0")],
                devDependencies := some [("jest", "^29.0.0"),
                  ("eslint", "^8.0.0")] }⟩
        "analyze_dependencies" { includeDevDependencies := some true } 0 0 =
          .ok (ToolResult.deps r) ∧ r.totalDependencies = 3) ∧
    (∃ r, executeTool
        ⟨FSEntry.dir "p" [] 0 true, "p",
         some { dependencies := some [("lodash", "^4.0.0")],
                devDependencies := some [("jest", "^29.0.0"),
                  ("eslint", "^8.0.0")] }⟩
        "analyze_dependencies" { includeDevDependencies := some false } 0 0 =
          .ok (ToolResult.deps r) ∧ r.totalDependencies = 1) :=
  analyze_dependencies_totals
    ⟨FSEntry.dir "p" [] 0 true, "p",
     some { dependencies := some [("lodash", "^4.0.0")],
            devDependencies := some [("jest", "^29.0.0"),
              ("eslint", "^8.0.0")] }⟩
    { dependencies := some [("lodash", "^4.0.0")],
      devDependencies := some [("jest", "^29.0.0"), ("eslint", "^8.0.0")] }
    [("lodash", "^4.0.0")] [("jest", "^29.0.0"), ("eslint", "^8.0.0")]
    {} 0 0 rfl rfl rfl

/-! ## C4: the dependencies resource on a one-dependency manifest -/

/-- Whether the project root's listing contains an entry named
`package-lock.json` (the marker that makes the resources-side
`detectPackageManager` answer "npm"). -/
def rootHasPackageLock (p : Project) : Bool :=
  match p.rootEntries with
  | some es => (es.map FSEntry.name).contains "package-lock.json"
  | none => false

/-- C4 (amended): for a project whose `package.json` declares exactly one
production dependency and no devDependencies, the dependencies resource
returns the analysis of `getProjectDependencies`; when `package-lock.json`
is present at the root it reports `packageManager = "npm"` and
`totalCount = 1`, but when the detected manager is "unknown" (no
recognized lock or manifest marker) it reports `packageManager =
"unknown"` with an empty dependency set and `totalCount = 0` — not
`totalCount = 1` as claimed. -/
theorem dependencies_resource_single_dep (p : Project) (m : Manifest)
    (nm v : String) (hm : p.manifest = some m)
    (hd : m.dependencies = some [(nm, v)])
    (hdd : m.devDependencies = none) :
    readResource p "context://project/dependencies" =
      .ok (.dependencies (getProjectDependencies p)) ∧
    (rootHasPackageLock p = true →
      (getProjectDependencies p).packageManager = "npm" ∧
      (getProjectDependencies p).totalCount = 1) ∧
    (Resources.detectPackageManager p = "unknown" →
      (getProjectDependencies p).packageManager = "unknown" ∧
      (getProjectDependencies p).totalCount = 0) := by
  refine ⟨?_, ?_, ?_⟩
  · simp [readResource, readResourceInner, errorHandlingMiddleware]
  · intro hLock
    have hpm : Resources.detectPackageManager p = "npm" := by
      unfold Resources.detectPackageManager
      unfold rootHasPackageLock at hLock
      match he : p.rootEntries with
      | none => rw [he] at hLock; simp at hLock
      | some es =>
          rw [he] at hLock
          simp at hLock
          simp [hLock]
    simp [getProjectDependencies, hpm, analyzeNpmDependencies, hm, hd, hdd]
  · intro hpm
    simp [getProjectDependencies, hpm]

/-- A project whose root holds only `package.json` (one lodash
dependency, no lock file). -/
def lodashNoLockProject : Project :=
  ⟨FSEntry.dir "p" [FSEntry.file "package.json" 50 "" 0 true] 0 true, "p",
   some { dependencies := some [("lodash", "^4.0.0")] }⟩

/-- C4 counterexample: with the one-dependency manifest but no lock
file, the resource reports `packageManager = "unknown"` and
`totalCount = 0`, refuting the claimed `totalCount = 1`. -/
theorem dependencies_resource_single_dep_counterexample :
    readResource lodashNoLockProject "context://project/dependencies" =
      .ok (.dependencies
        { packageManager := "unknown", dependencies := [],
          devDependencies := [], totalCount := 0,
          lockFileExists := false }) ∧
    (getProjectDependencies lodashNoLockProject).totalCount ≠ 1 := by
  constructor <;>
    simp [lodashNoLockProject, readResource, readResourceInner,
      errorHandlingMiddleware, getProjectDependencies,
      Resources.detectPackageManager, Project.rootEntries, FSEntry.name]

/-- A project identical to `lodashNoLockProject` but with a
`package-lock.json` at the root. -/
def lodashWithLockProject : Project :=
  ⟨FSEntry.dir "p"
    [FSEntry.file "package.json" 50 "" 0 true,
     FSEntry.file "package-lock.json" 80 "" 0 true] 0 true, "p",
   some { dependencies := some [("lodash", "^4.0.0")] }⟩

/-- C4 witness: the amended statement evaluated on the two concrete
projects (lock file present, and no marker at all). -/
theorem dependencies_resource_single_dep_witness :
    ((getProjectDependencies lodashWithLockProject).packageManager =
        "npm" ∧
      (getProjectDependencies lodashWithLockProject).totalCount = 1) ∧
    ((getProjectDependencies lodashNoLockProject).packageManager =
        "unknown" ∧
      (getProjectDependencies lodashNoLockProject).totalCount = 0) :=
  ⟨(dependencies_resource_single_dep lodashWithLockProject
      { dependencies := some [("lodash", "^4.0.0")] } "lodash" "^4.0.0"
      rfl rfl rfl).2.1 (by decide),
   (dependencies_resource_single_dep lodashNoLockProject
      { dependencies := some [("lodash", "^4.0.0")] } "lodash" "^4.0.0"
      rfl rfl rfl).2.2 (by decide)⟩

/-! ## C7: errors at the tool boundary -/

theorem executeToolInner_error_name (p : Project) (toolName : String)
    (params : ToolCallParams) (t0 t1 : Int) (e : JsError)
    (h : executeToolInner p toolName params t0 t1 = .error e) :
    e.name = "ValidationError" ∨ e.name = "NotFoundError" := by
  unfold executeToolInner at h
  by_cases h1 : toolName = "analyze_dependencies"
  · rw [if_pos h1] at h
    unfold analyzeDependencies at h
    cases hm : p.manifest with
    | none =>
        rw [hm] at h
        simp [Except.map, validationError] at h
        rw [← h]
        exact Or.inl rfl
    | some m => rw [hm] at h; simp [Except.map] at h
  · rw [if_neg h1] at h
    by_cases h2 : toolName = "get_recent_changes"
    · rw [if_pos h2] at h
      exact Except.noConfusion h
    · rw [if_neg h2] at h
      by_cases h3 : toolName = "navigate_structure"
      · rw [if_pos h3] at h
        cases hr : resolvePath p.root (pathSegs (params.path.getD "")) with
        | none =>
            simp only [navigateStructure, hr, Except.map] at h
            injection h with he
            rw [← he]
            exact Or.inr rfl
        | some tgt =>
            cases tgt with
            | file n sz c mt rd =>
                simp only [navigateStructure, hr, Except.map] at h
                exact Except.noConfusion h
            | dir n es mt rd =>
                by_cases hrd : rd = true
                · simp only [navigateStructure, hr, hrd, if_true,
                    Except.map] at h
                  exact Except.noConfusion h
                · simp only [navigateStructure, hr, hrd, if_false,
                    Bool.false_eq_true, Except.map] at h
                  injection h with he
                  rw [← he]
                  exact Or.inr rfl
      · rw [if_neg h3] at h
        by_cases h4 : toolName = "search_project"
        · rw [if_pos h4] at h
          cases hq : params.query with
          | none =>
              rw [hq] at h
              simp [validationError] at h
              rw [← h]
              exact Or.inl rfl
          | some q =>
              rw [hq] at h
              by_cases hq0 : q = ""
              · simp [hq0, validationError] at h
                rw [← h]
                exact Or.inl rfl
              · simp [hq0, searchProject, Except.map] at h
        · rw [if_neg h4] at h
          simp [notFoundError] at h
          rw [← h]
          exact Or.inr rfl

/-- C7 (amended): every error crossing the tool boundary is a
classified one: the thrown error is always a `ValidationError` or a
`NotFoundError` (never a raw internal error), and the message re-thrown
by the middleware is accordingly prefixed `Invalid request` or
`Resource not found` — but not, as claimed, always Validation-classified:
`navigate_structure` re-raises its unexpected failures as
`NotFoundError`. -/
theorem executeTool_boundary_classified (p : Project) (toolName : String)
    (params : ToolCallParams) (t0 t1 : Int) :
    (∃ r, executeTool p toolName params t0 t1 = .ok r) ∨
    (∃ e, executeToolInner p toolName params t0 t1 = .error e ∧
      (e.name = "ValidationError" ∨ e.name = "NotFoundError") ∧
      executeTool p toolName params t0 t1 = .error (classifyError e) ∧
      (jsStartsWith (classifyError e) "Invalid request" = true ∨
        jsStartsWith (classifyError e) "Resource not found" = true)) := by
  cases hi : executeToolInner p toolName params t0 t1 with
  | ok r =>
      left
      exact ⟨r, by simp [executeTool, errorHandlingMiddleware, hi]⟩
  | error e =>
      right
      have hn := executeToolInner_error_name p toolName params t0 t1 e hi
      refine ⟨e, rfl, hn,
        by simp [executeTool, errorHandlingMiddleware, hi], ?_⟩
      rcases hn with hn | hn
      · left
        have hce : classifyError e = "Invalid request: " ++ e.message := by
          simp [classifyError, hn]
        rw [hce]
        exact listPrefixOf_append _ _ _ (by decide)
      · right
        have hce : classifyError e = "Resource not found: " ++ e.message := by
          simp [classifyError, hn]
        rw [hce]
        exact listPrefixOf_append _ _ _ (by decide)

/-- C7 counterexample: a `navigate_structure` call failing on a missing
path crosses the boundary as a NotFound-classified error, not a
Validation-classified one. -/
theorem navigate_error_not_validation_counterexample :
    executeTool emptyProject "navigate_structure" { path := some "missing" }
      0 0 =
      .error "Resource not found: Path not found or inaccessible: missing" ∧
    jsStartsWith "Resource not found: Path not found or inaccessible: missing"
      "Invalid request" = false := by
  constructor
  · simp [executeTool, executeToolInner, errorHandlingMiddleware,
      navigateStructure, pathSegs, splitOnChar, splitCharGo, resolvePath,
      emptyProject, classifyError, notFoundError, Except.map]
  · decide

/-! ## C9: the maxResults budget of search_project -/

theorem countLines_cons (q : String) (cs : Bool) (l : String)
    (rest : List String) :
    countLines q cs (l :: rest) =
      (if (!(l == "") &&
          jsIncludes (if cs then l else jsToLower l)
            (if cs then q else jsToLower q)) = true then 1 else 0) +
        countLines q cs rest := by
  by_cases h : (!(l == "") &&
      jsIncludes (if cs then l else jsToLower l)
        (if cs then q else jsToLower q)) = true <;>
    (simp [countLines, List.filter_cons, h]; try omega)

theorem contentLines_length (q : String) (cs : Bool) (rel : String)
    (maxResults : Nat) :
    ∀ (lines : List String) (i : Nat) (acc : List SearchMatch),
      acc.length ≤ maxResults →
      (contentLines q cs rel maxResults lines i acc).length =
        min maxResults (acc.length + countLines q cs lines) := by
  intro lines
  induction lines with
  | nil =>
      intro i acc h
      simp [contentLines, countLines]
      omega
  | cons l rest ih =>
      intro i acc h
      rw [contentLines, countLines_cons]
      by_cases hfull : acc.length ≥ maxResults
      · rw [if_pos hfull]
        have he : acc.length = maxResults := le_antisymm h hfull
        rw [he]
        omega
      · rw [if_neg hfull]
        by_cases hl : l = ""
        · rw [if_pos hl]
          rw [ih _ _ h]
          simp [hl]
        · rw [if_neg hl]
          by_cases hm : jsIncludes (if cs then l else jsToLower l)
              (if cs then q else jsToLower q) = true
          · rw [if_pos hm]
            rw [ih _ _ (by simp; omega)]
            have : (!(l == "") &&
                jsIncludes (if cs then l else jsToLower l)
                  (if cs then q else jsToLower q)) = true := by
              simp [hm, hl]
            rw [if_pos this]
            simp
            omega
          · rw [if_neg hm]
            rw [ih _ _ h]
            have : (!(l == "") &&
                jsIncludes (if cs then l else jsToLower l)
                  (if cs then q else jsToLower q)) = false := by
              simp [hm]
            rw [this]
            simp

theorem contentPhase_length (q : String) (opts : SearchOptions)
    (rel : String) (size : Nat) (content : String) (readable : Bool)
    (acc1 : List SearchMatch) (h1 : acc1.length ≤ opts.maxResults) :
    (contentPhase q opts rel size content readable acc1).length =
      min opts.maxResults
        (acc1.length + countContent q opts size content readable) := by
  by_cases hic : opts.includeContent = true
  · rcases Nat.lt_or_ge acc1.length opts.maxResults with hlt | hge
    · by_cases hsz : size > 1024 * 1024
      · simp [contentPhase, countContent, hic, hlt, hsz]
        omega
      · by_cases hrd : readable = true
        · by_cases hinc : jsIncludes
              (if opts.caseSensitive then content else jsToLower content)
              (if opts.caseSensitive then q else jsToLower q) = true
          · simp [contentPhase, countContent, hic, hlt, hsz, hrd, hinc]
            rw [contentLines_length _ _ _ _ _ _ _ h1]
          · simp [contentPhase, countContent, hic, hlt, hsz, hrd, hinc]
            omega
        · have hrd2 : readable = false := by cases readable <;> simp_all
          simp [contentPhase, countContent, hic, hlt, hsz, hrd2]
          omega
    · have hnlt : ¬ (acc1.length < opts.maxResults) := by omega
      simp [contentPhase, countContent, hic, hnlt]
      omega
  · have hic2 : opts.includeContent = false := by
      cases h2 : opts.includeContent <;> simp_all
    simp [contentPhase, countContent, hic2]
    omega

theorem searchFile_length (q : String) (opts : SearchOptions)
    (rel n : String) (size : Nat) (content : String) (readable : Bool)
    (acc : List SearchMatch) (h : acc.length < opts.maxResults) :
    (searchFile q opts rel n size content readable acc).length =
      min opts.maxResults
        (acc.length + countFile q opts n size content readable) := by
  simp only [searchFile, countFile]
  by_cases hnm : (if opts.caseSensitive then jsIncludes n q
      else jsIncludes (jsToLower n) (jsToLower q)) = true
  · simp only [hnm, if_true]
    rw [contentPhase_length _ _ _ _ _ _ _ (by simp; omega)]
    simp
    omega
  · simp only [hnm, if_false, Bool.false_eq_true]
    rw [contentPhase_length _ _ _ _ _ _ _ (by omega)]
    simp

theorem searchList_length_fuel (q : String) (opts : SearchOptions) :
    ∀ (fuel : Nat) (es : List FSEntry) (pre : String)
      (acc : List SearchMatch), sizeOf es ≤ fuel →
      acc.length ≤ opts.maxResults →
      (searchList q opts es pre acc).length =
        min opts.maxResults (acc.length + countList q opts es) := by
  intro fuel
  induction fuel with
  | zero =>
      intro es pre acc hs ha
      cases es with
      | nil => simp [searchList, countList]; omega
      | cons e rest => exfalso; cases e <;> simp at hs
  | succ m ih =>
      intro es pre acc hs ha
      cases es with
      | nil => simp [searchList, countList]; omega
      | cons e rest =>
          cases e with
          | dir n entries mt readable =>
              have hsr : sizeOf rest ≤ m := by simp at hs; omega
              have hse : sizeOf entries ≤ m := by simp at hs; omega
              simp only [searchList]
              by_cases hfull : acc.length ≥ opts.maxResults
              · rw [if_pos hfull]
                have he : acc.length = opts.maxResults :=
                  le_antisymm ha hfull
                omega
              · rw [if_neg hfull]
                by_cases hskip : skipEntry n = true
                · rw [if_pos hskip, ih rest pre acc hsr ha]
                  simp [countList, hskip]
                · rw [if_neg hskip]
                  by_cases hrd : readable = true
                  · rw [if_pos hrd]
                    have hinner := ih entries (relOf pre n) acc hse ha
                    have hlen : (searchList q opts entries (relOf pre n)
                        acc).length ≤ opts.maxResults := by
                      rw [hinner]; omega
                    rw [ih rest pre _ hsr hlen, hinner]
                    simp [countList, hskip, hrd]
                    omega
                  · rw [if_neg hrd, ih rest pre acc hsr ha]
                    have hrd2 : readable = false := by
                      cases readable <;> simp_all
                    simp [countList, hskip, hrd2]
          | file n size content mt readable =>
              have hsr : sizeOf rest ≤ m := by simp at hs; omega
              simp only [searchList]
              by_cases hfull : acc.length ≥ opts.maxResults
              · rw [if_pos hfull]
                have he : acc.length = opts.maxResults :=
                  le_antisymm ha hfull
                omega
              · rw [if_neg hfull]
                by_cases hskip : skipEntry n = true
                · rw [if_pos hskip, ih rest pre acc hsr ha]
                  simp [countList, hskip]
                · rw [if_neg hskip]
                  have hsf := searchFile_length q opts (relOf pre n) n size
                    content readable acc (by omega)
                  have hlen2 : (searchFile q opts (relOf pre n) n size
                      content readable acc).length ≤ opts.maxResults := by
                    rw [hsf]; omega
                  rw [ih rest pre _ hsr hlen2, hsf]
                  simp [countList, hskip]
                  omega

/-- Search options with everything defaulted except the budget (the
options `searchProject` builds from `{query, maxResults}` parameters). -/
def searchOptsDefault (k : Nat) : SearchOptions :=
  { filePattern := none, maxResults := k, caseSensitive := false,
    includeContent := true }

/-- Total number of matches the project tree holds for `q` under the
given options: the count the budgetless walk would collect. -/
def totalMatches (p : Project) (q : String) (opts : SearchOptions) : Nat :=
  match p.root with
  | .dir _ es _ true => countList q opts es
  | _ => 0

/-- C9: on a project tree containing more than one match for the query
"foo", `search_project` called with `maxResults = 1` returns exactly one
match (both in `results` and in `totalResults`), and `searchTime` is the
difference of the two clock readings, hence non-negative whenever the
clock did not go backwards. -/
theorem search_project_max_one (p : Project) (t0 t1 : Int)
    (h2 : 2 ≤ totalMatches p "foo" (searchOptsDefault 1)) :
    ∃ r, executeTool p "search_project"
        { query := some "foo", maxResults := some 1 } t0 t1 =
          .ok (ToolResult.search r) ∧
      r.results.length = 1 ∧ r.totalResults = 1 ∧
      (t0 ≤ t1 → 0 ≤ r.searchTime) := by
  cases hr : p.root with
  | file n sz c mt rd =>
      exfalso
      unfold totalMatches at h2
      rw [hr] at h2
      simp at h2
  | dir n es mt rd =>
      cases rd with
      | false =>
          exfalso
          unfold totalMatches at h2
          rw [hr] at h2
          simp at h2
      | true =>
          unfold totalMatches at h2
          rw [hr] at h2
          simp at h2
          have hlen := searchList_length_fuel "foo" (searchOptsDefault 1)
            (sizeOf es) es "" [] (Nat.le_refl _) (by simp [searchOptsDefault])
          have hone : (searchList "foo" (searchOptsDefault 1) es "" []).length
              = 1 := by
            rw [hlen]
            have hm : (searchOptsDefault 1).maxResults = 1 := rfl
            rw [hm]
            omega
          refine ⟨{ query := "foo",
                    totalResults :=
                      (searchList "foo" (searchOptsDefault 1) es "" []).length,
                    results := searchList "foo" (searchOptsDefault 1) es "" [],
                    searchTime := t1 - t0 }, ?_, ?_, ?_, ?_⟩
          · simp [executeTool, executeToolInner, errorHandlingMiddleware,
              searchProject, hr, Except.map, searchOptsDefault]
          · exact hone
          · exact hone
          · intro hle
            simp
            omega

/-! ## C2: the 1 MiB ceiling -/

/-- Index of every file in a listing (and its subtrees) with its search
relative path, recorded size and content. -/
def filesIndex : List FSEntry → String → List (String × Nat × String)
  | [], _ => []
  | .file n sz c _ _ :: rest, pre =>
      (relOf pre n, sz, c) :: filesIndex rest pre
  | .dir n es2 _ _ :: rest, pre =>
      filesIndex es2 (relOf pre n) ++ filesIndex rest pre

/-- The file index of the whole project tree. -/
def projectFilesIndex (p : Project) : List (String × Nat × String) :=
  match p.root with
  | .dir _ es _ _ => filesIndex es ""
  | _ => []

theorem contentLines_mem (q : String) (cs : Bool) (rel : String)
    (maxResults : Nat) :
    ∀ (lines : List String) (i : Nat) (acc : List SearchMatch)
      (m : SearchMatch), m ∈ contentLines q cs rel maxResults lines i acc →
      m ∈ acc ∨ (m.type = MatchType.content ∧ m.file = rel ∧
        ∃ l, l ∈ lines ∧ m.content = some l) := by
  intro lines
  induction lines with
  | nil =>
      intro i acc m hm
      rw [contentLines] at hm
      exact Or.inl hm
  | cons l rest ih =>
      intro i acc m hm
      rw [contentLines] at hm
      by_cases hfull : acc.length ≥ maxResults
      · rw [if_pos hfull] at hm
        exact Or.inl hm
      · rw [if_neg hfull] at hm
        rcases ih _ _ _ hm with hm2 | ⟨ht, hf, l2, hl2, hc⟩
        · by_cases hl : l = ""
          · rw [if_pos hl] at hm2
            exact Or.inl hm2
          · rw [if_neg hl] at hm2
            by_cases hinc : jsIncludes (if cs then l else jsToLower l)
                (if cs then q else jsToLower q) = true
            · rw [if_pos hinc] at hm2
              rcases List.mem_append.mp hm2 with h | h
              · exact Or.inl h
              · simp at h
                subst h
                exact Or.inr ⟨rfl, rfl, l, by simp, rfl⟩
            · rw [if_neg hinc] at hm2
              exact Or.inl hm2
        · exact Or.inr ⟨ht, hf, l2, List.mem_cons_of_mem _ hl2, hc⟩

theorem contentPhase_mem (q : String) (opts : SearchOptions) (rel : String)
    (size : Nat) (content : String) (readable : Bool)
    (acc1 : List SearchMatch) (m : SearchMatch)
    (hm : m ∈ contentPhase q opts rel size content readable acc1) :
    m ∈ acc1 ∨ (m.type = MatchType.content ∧ m.file = rel ∧
      size ≤ 1024 * 1024 ∧
      ∃ l, l ∈ splitOnChar '\n' content ∧ m.content = some l) := by
  simp only [contentPhase] at hm
  by_cases hic : (opts.includeContent &&
      acc1.length < opts.maxResults) = true
  · rw [if_pos hic] at hm
    by_cases hsz : size > 1024 * 1024
    · rw [if_pos hsz] at hm
      exact Or.inl hm
    · rw [if_neg hsz] at hm
      by_cases hrd : (!readable) = true
      · rw [if_pos hrd] at hm
        exact Or.inl hm
      · rw [if_neg hrd] at hm
        by_cases hinc : jsIncludes
            (if opts.caseSensitive then content else jsToLower content)
            (if opts.caseSensitive then q else jsToLower q) = true
        · rw [if_pos hinc] at hm
          rcases contentLines_mem _ _ _ _ _ _ _ _ hm with h | ⟨ht, hf, hl⟩
          · exact Or.inl h
          · exact Or.inr ⟨ht, hf, by omega, hl⟩
        · rw [if_neg hinc] at hm
          exact Or.inl hm
  · rw [if_neg hic] at hm
    exact Or.inl hm

theorem searchFile_mem (q : String) (opts : SearchOptions) (rel n : String)
    (size : Nat) (content : String) (readable : Bool)
    (acc : List SearchMatch) (m : SearchMatch)
    (hm : m ∈ searchFile q opts rel n size content readable acc) :
    m ∈ acc ∨ m.type = MatchType.filename ∨
      (m.type = MatchType.content ∧ m.file = rel ∧ size ≤ 1024 * 1024 ∧
        ∃ l, l ∈ splitOnChar '\n' content ∧ m.content = some l) := by
  simp only [searchFile] at hm
  rcases contentPhase_mem _ _ _ _ _ _ _ _ hm with h | hcontent
  · by_cases hnm : (if opts.caseSensitive then jsIncludes n q
        else jsIncludes (jsToLower n) (jsToLower q)) = true
    · rw [if_pos hnm] at h
      rcases List.mem_append.mp h with h2 | h2
      · exact Or.inl h2
      · simp at h2
        subst h2
        exact Or.inr (Or.inl rfl)
    · rw [if_neg hnm] at h
      exact Or.inl h
  · exact Or.inr (Or.inr hcontent)

theorem searchList_mem_fuel (q : String) (opts : SearchOptions) :
    ∀ (fuel : Nat) (es : List FSEntry) (pre : String)
      (acc : List SearchMatch) (m : SearchMatch), sizeOf es ≤ fuel →
      m ∈ searchList q opts es pre acc →
      m ∈ acc ∨ m.type = MatchType.filename ∨
        (m.type = MatchType.content ∧ ∃ sz c,
          (m.file, sz, c) ∈ filesIndex es pre ∧ sz ≤ 1024 * 1024 ∧
          ∃ l, l ∈ splitOnChar '\n' c ∧ m.content = some l) := by
  intro fuel
  induction fuel with
  | zero =>
      intro es pre acc m hs hm
      cases es with
      | nil => rw [searchList] at hm; exact Or.inl hm
      | cons e rest => exfalso; cases e <;> simp at hs
  | succ k ih =>
      intro es pre acc m hs hm
      cases es with
      | nil => rw [searchList] at hm; exact Or.inl hm
      | cons e rest =>
          cases e with
          | dir n entries mt readable =>
              have hsr : sizeOf rest ≤ k := by simp at hs; omega
              have hse : sizeOf entries ≤ k := by simp at hs; omega
              simp only [searchList] at hm
              by_cases hfull : acc.length ≥ opts.maxResults
              · rw [if_pos hfull] at hm
                exact Or.inl hm
              · rw [if_neg hfull] at hm
                rcases ih rest pre _ m hsr hm with h | h |
                  ⟨ht, sz, c, hfi, hsz, hl⟩
                · by_cases hskip : skipEntry n = true
                  · rw [if_pos hskip] at h
                    exact Or.inl h
                  · rw [if_neg hskip] at h
                    by_cases hrd : readable = true
                    · rw [if_pos hrd] at h
                      rcases ih entries (relOf pre n) acc m hse h with
                        h2 | h2 | ⟨ht2, sz2, c2, hfi2, hsz2, hl2⟩
                      · exact Or.inl h2
                      · exact Or.inr (Or.inl h2)
                      · refine Or.inr (Or.inr ⟨ht2, sz2, c2, ?_, hsz2, hl2⟩)
                        rw [filesIndex]
                        exact List.mem_append_left _ hfi2
                    · rw [if_neg hrd] at h
                      exact Or.inl h
                · exact Or.inr (Or.inl h)
                · refine Or.inr (Or.inr ⟨ht, sz, c, ?_, hsz, hl⟩)
                  rw [filesIndex]
                  exact List.mem_append_right _ hfi
          | file n size content mt readable =>
              have hsr : sizeOf rest ≤ k := by simp at hs; omega
              simp only [searchList] at hm
              by_cases hfull : acc.length ≥ opts.maxResults
              · rw [if_pos hfull] at hm
                exact Or.inl hm
              · rw [if_neg hfull] at hm
                rcases ih rest pre _ m hsr hm with h | h |
                  ⟨ht, sz, c, hfi, hsz, hl⟩
                · by_cases hskip : skipEntry n = true
                  · rw [if_pos hskip] at h
                    exact Or.inl h
                  · rw [if_neg hskip] at h
                    rcases searchFile_mem _ _ _ _ _ _ _ _ _ h with
                      h2 | h2 | ⟨ht2, hf2, hsz2, hl2⟩
                    · exact Or.inl h2
                    · exact Or.inr (Or.inl h2)
                    · refine Or.inr (Or.inr ⟨ht2, size, content, ?_,
                        hsz2, hl2⟩)
                      rw [filesIndex, hf2]
                      exact List.mem_cons_self _ _
                · exact Or.inr (Or.inl h)
                · refine Or.inr (Or.inr ⟨ht, sz, c, ?_, hsz, hl⟩)
                  rw [filesIndex]
                  exact List.mem_cons_of_mem _ hfi

theorem listPrefixOf_refl : ∀ l : List Char, listPrefixOf l l = true := by
  intro l
  induction l with
  | nil => rfl
  | cons c cs ih => simp [listPrefixOf, ih]

/-- C2: the 1 MiB size ceiling.  (a) Reading
`context://file/<path>` for a file whose recorded size exceeds
1 MiB fails with the NotFound-classified message instead of returning
content.  (b) Every content-typed match `search_project` returns comes
from a file of the project tree whose recorded size is at most 1 MiB
(its `content` field is a line of that file) — an oversized file is
skipped by content matching entirely. -/
theorem file_size_ceiling (p : Project) :
    (∀ (path n : String) (sz : Nat) (c : String) (mt : Nat) (rd : Bool),
      resolvePath p.root (pathSegs path) = some (FSEntry.file n sz c mt rd) →
      sz > 1024 * 1024 →
      readResource p ("context://file/" ++ path) =
        .error ("Resource not found: Cannot read file: " ++ path)) ∧
    (∀ (params : SearchProjectParams) (t0 t1 : Int) (r : SearchResult),
      searchProject p params t0 t1 = .ok r →
      ∀ m ∈ r.results, m.type = MatchType.content →
      ∃ sz c, (m.file, sz, c) ∈ projectFilesIndex p ∧ sz ≤ 1024 * 1024 ∧
        ∃ l, l ∈ splitOnChar '\n' c ∧ m.content = some l) := by
  constructor
  · intro path n sz c mt rd hres hsz
    have hcat : ("context://file/" ++ path).toList =
        "context://file/".toList ++ path.toList := by
      simp [String.toList]
    have hpre : jsStartsWith ("context://file/" ++ path)
        "context://file/" = true := by
      simp only [jsStartsWith, hcat]
      exact listPrefixOf_append _ _ _ (listPrefixOf_refl _)
    have hne : ∀ u : String, jsStartsWith u "context://file/" = false →
        ("context://file/" ++ path) ≠ u := by
      intro u hu he
      rw [he] at hpre
      rw [hpre] at hu
      exact Bool.noConfusion hu
    unfold readResource readResourceInner
    rw [if_neg (hne _ (by decide)), if_neg (hne _ (by decide)),
      if_neg (hne _ (by decide)), if_pos hpre]
    have hdrop : String.mk (("context://file/" ++ path).toList.drop 15) =
        path := by
      rw [hcat]
      have h2 : (15 : Nat) = "context://file/".toList.length := by decide
      rw [h2, List.drop_left]
      rfl
    rw [hdrop]
    unfold getFileContent
    simp only [hres]
    rw [if_pos hsz]
    simp [errorHandlingMiddleware, Except.map, classifyError, notFoundError]
    rw [← String.append_assoc]
    rfl
  · intro params t0 t1 r hok m hm ht
    unfold searchProject at hok
    by_cases hq : params.query = ""
    · rw [if_pos hq] at hok
      exact Except.noConfusion hok
    · rw [if_neg hq] at hok
      injection hok with hok
      rw [← hok] at hm
      cases hr : p.root with
      | file n2 sz2 c2 mt2 rd2 =>
          rw [hr] at hm
          simp at hm
      | dir n2 es mt2 rd2 =>
          cases rd2 with
          | false =>
              rw [hr] at hm
              simp at hm
          | true =>
              rw [hr] at hm
              simp only at hm
              rcases searchList_mem_fuel _ _ (sizeOf es) es "" [] m
                  (Nat.le_refl _) hm with h | h | ⟨_, sz, c, hfi, hsz, hl⟩
              · exact absurd h (List.not_mem_nil m)
              · rw [ht] at h
                exact MatchType.noConfusion h
              · refine ⟨sz, c, ?_, hsz, hl⟩
                unfold projectFilesIndex
                rw [hr]
                exact hfi

/-- A project whose root holds one 2 MB file. -/
def bigProject : Project :=
  ⟨FSEntry.dir "p" [FSEntry.file "big.bin" 2000000 "x" 0 true] 0 true,
   "p", none⟩

/-- A project with one small file whose content is `foo`. -/
def fooProject : Project :=
  ⟨FSEntry.dir "p" [FSEntry.file "a.txt" 3 "foo" 0 true] 0 true,
   "p", none⟩

/-- The content match the search on `fooProject` produces. -/
def fooMatch : SearchMatch :=
  ⟨"a.txt", some 1, none, some "foo", none, MatchType.content⟩

/-- C2 witness: the oversized file is rejected with the NotFound
message, and the content match found in `fooProject` is traced to a file
under the ceiling. -/
theorem file_size_ceiling_witness :
    readResource bigProject ("context://file/" ++ "big.bin") =
      .error ("Resource not found: Cannot read file: " ++ "big.bin") ∧
    (∃ sz c, (fooMatch.file, sz, c) ∈ projectFilesIndex fooProject ∧
      sz ≤ 1024 * 1024 ∧
      ∃ l, l ∈ splitOnChar '\n' c ∧ fooMatch.content = some l) := by
  constructor
  · exact (file_size_ceiling bigProject).1 "big.bin" "big.bin" 2000000 "x"
      0 true rfl (by norm_num)
  · refine (file_size_ceiling fooProject).2 { query := "foo" } 0 0
      { query := "foo", totalResults := 1, results := [fooMatch],
        searchTime := 0 } ?_ fooMatch ?_ rfl
    · simp [searchProject, fooProject, searchList, searchFile, contentPhase,
        contentLines, skipEntry, jsStartsWith, listPrefixOf, jsIncludes,
        listInfixOf, jsToLower, splitOnChar, splitCharGo, relOf, fooMatch,
        FSEntry.name]
    · simp

/-- A project with two files whose names contain `foo`. -/
def twoFooProject : Project :=
  ⟨FSEntry.dir "p"
    [FSEntry.file "foo1.txt" 3 "" 0 true,
     FSEntry.file "foo2.txt" 3 "" 0 true] 0 true, "p", none⟩

/-- C9 witness: on a project with two filename matches for "foo", the
search with `maxResults = 1` returns exactly one match. -/
theorem search_project_max_one_witness :
    ∃ r, executeTool twoFooProject "search_project"
        { query := some "foo", maxResults := some 1 } 0 0 =
          .ok (ToolResult.search r) ∧
      r.results.length = 1 ∧ r.totalResults = 1 ∧
      ((0 : Int) ≤ 0 → 0 ≤ r.searchTime) :=
  search_project_max_one twoFooProject 0 0 (by
    simp [totalMatches, twoFooProject, countList, countFile, countContent,
      countLines, skipEntry, jsStartsWith, listPrefixOf, jsIncludes,
      listInfixOf, jsToLower, splitOnChar, splitCharGo, searchOptsDefault,
      FSEntry.name])
